import Mathlib

/-!
# Per-block yield accrual and pool sweep of the trust deposit keeper

A shallow embedding of `x/td/keeper/abci.go` (`BeginBlocker`,
`CalculateAndSendAmountFromYieldIntermediatePool`, `SendFundsBackToCommunityPool`)
together with the parts of `cosmossdk.io/math` and `sdk.Coins` these functions call.

Conventions.
* `math.Int` and the `big.Int` inside `math.LegacyDec` are Lean `Int`; the bit-length
  checks of the library are explicit, and a Go panic is the result `none`
  (pure helpers) or `Outcome.panicked` (keeper methods).
* A `LegacyDec` is its raw integer `i`, the value scaled by `10^18`.
* A keeper method that returns a Go `error` returns `Outcome.failed e ctx`, where `ctx`
  is the store as the method left it.
-/

namespace Verana

/-! ## cosmossdk.io/math -/

/-- The scaling factor of `LegacyDec`, `precisionReuse = 10^18` (`LegacyPrecision = 18`). -/
def precisionReuse : Int := 10 ^ 18

/-- Half of the scaling factor, `fivePrecision = precisionReuse / 2`. -/
def fivePrecision : Int := 5 * 10 ^ 17

/-- Largest bit length of a `math.Int`, `MaxBitLen = 256`. -/
def MaxBitLen : Nat := 256

/-- Largest bit length of the raw integer of a `LegacyDec`,
`maxDecBitLen = MaxBitLen + LegacyDecimalPrecisionBits = 256 + 60`. -/
def maxDecBitLen : Nat := 316

/-- The test `x.BitLen() <= n` of `big.Int` (the bit length of the absolute value). -/
def bitLenLE (x : Int) (n : Nat) : Bool := decide (x.natAbs < 2 ^ n)

/-- The type `math.LegacyDec`: a fixed-point decimal with 18 fractional digits, held as
the integer `i = value * 10^18`. -/
structure LegacyDec where
  i : Int
deriving DecidableEq, Repr

/-- The non-negative case of `chopPrecisionAndRound`: quotient and remainder by `10^18`,
rounding half to even. -/
def chopPrecisionAndRoundNonneg (d : Int) : Int :=
  let quo := Int.tdiv d precisionReuse
  let rem := Int.tmod d precisionReuse
  if rem = 0 then quo
  else if rem < fivePrecision then quo
  else if fivePrecision < rem then quo + 1
  else if quo % 2 = 0 then quo
  else quo + 1

/-- The function `chopPrecisionAndRound`: remove 18 digits with banker's rounding; a
negative argument is negated, chopped and negated back. -/
def chopPrecisionAndRound (d : Int) : Int :=
  if d < 0 then -(chopPrecisionAndRoundNonneg (-d)) else chopPrecisionAndRoundNonneg d

/-- The conversion `int64(x)` of a `uint64`: values from `2^63` on wrap to negative. -/
def int64 (x : Nat) : Int :=
  if x % 2 ^ 64 < 2 ^ 63 then ((x % 2 ^ 64 : Nat) : Int) else ((x % 2 ^ 64 : Nat) : Int) - 2 ^ 64

/-- The constructor `math.NewInt(n int64)`. -/
def NewInt (n : Int) : Int := n

/-- The constructor `math.LegacyNewDecFromInt(i)`: the decimal with integer value `i`. -/
def LegacyNewDecFromInt (i : Int) : LegacyDec := ⟨i * precisionReuse⟩

/-- The constructor `math.LegacyNewDec(i int64)`. -/
def LegacyNewDec (i : Int) : LegacyDec := ⟨i * precisionReuse⟩

/-- The method `LegacyDec.Mul`: product, chopped with rounding; panics (`none`) when the
result has more than `maxDecBitLen` bits. -/
def LegacyDec.Mul (d d2 : LegacyDec) : Option LegacyDec :=
  let chopped := chopPrecisionAndRound (d.i * d2.i)
  if bitLenLE chopped maxDecBitLen then some ⟨chopped⟩ else none

/-- The method `LegacyDec.Quo`: the raw numerator is multiplied by the precision twice,
divided with `big.Int.Quo` (truncated; panics on a zero divisor), then chopped with
rounding; panics (`none`) when the result has more than `maxDecBitLen` bits. -/
def LegacyDec.Quo (d d2 : LegacyDec) : Option LegacyDec :=
  if d2.i = 0 then none
  else
    let chopped := chopPrecisionAndRound (Int.tdiv (d.i * precisionReuse * precisionReuse) d2.i)
    if bitLenLE chopped maxDecBitLen then some ⟨chopped⟩ else none

/-- The method `LegacyDec.Add`; panics (`none`) on more than `maxDecBitLen` bits. -/
def LegacyDec.Add (d d2 : LegacyDec) : Option LegacyDec :=
  if bitLenLE (d.i + d2.i) maxDecBitLen then some ⟨d.i + d2.i⟩ else none

/-- The method `LegacyDec.Sub`; panics (`none`) on more than `maxDecBitLen` bits. -/
def LegacyDec.Sub (d d2 : LegacyDec) : Option LegacyDec :=
  if bitLenLE (d.i - d2.i) maxDecBitLen then some ⟨d.i - d2.i⟩ else none

/-- The method `LegacyDec.GTE`. -/
def LegacyDec.GTE (d d2 : LegacyDec) : Bool := decide (d2.i ≤ d.i)

/-- The method `LegacyDec.TruncateInt`: the integer part, truncated toward zero;
`NewIntFromBigInt` panics (`none`) when it has more than `MaxBitLen` bits. -/
def LegacyDec.TruncateInt (d : LegacyDec) : Option Int :=
  let t := Int.tdiv d.i precisionReuse
  if bitLenLE t MaxBitLen then some t else none

/-! ## sdk.Coin and sdk.Coins -/

/-- The type `sdk.Coin`. -/
structure Coin where
  Denom : String
  Amount : Int
deriving DecidableEq, Repr

/-- The type `sdk.Coins`, a slice of coins. -/
abbrev Coins := List Coin

/-- The check `sdk.ValidateDenom`: the pattern `[a-zA-Z][a-zA-Z0-9/:._-]{2,127}`. -/
def ValidateDenom (denom : String) : Bool :=
  match denom.toList with
  | [] => false
  | c :: cs =>
    c.isAlpha && decide (2 ≤ cs.length) && decide (cs.length ≤ 127) &&
      cs.all (fun x => x.isAlphanum || x == '/' || x == ':' || x == '.' || x == '_' || x == '-')

/-- The constructor `sdk.NewCoin`: panics (`none`) on an invalid denomination or a
negative amount. -/
def NewCoin (denom : String) (amount : Int) : Option Coin :=
  if ValidateDenom denom && decide (0 ≤ amount) then some ⟨denom, amount⟩ else none

/-- The lexicographic order of two character sequences. -/
def lexLess : List Char → List Char → Bool
  | _, [] => false
  | [], _ :: _ => true
  | a :: as, b :: bs =>
    if a.toNat < b.toNat then true
    else if b.toNat < a.toNat then false
    else lexLess as bs

/-- Go's `a < b` on strings, by which coins are ordered. -/
def stringLess (a b : String) : Bool := lexLess a.toList b.toList

/-- The check `Coins.Validate` behind `Coins.IsValid`: valid denominations, strictly
positive amounts, denominations strictly ascending. -/
def Coins.IsValid (coins : Coins) : Bool :=
  coins.all (fun c => ValidateDenom c.Denom && decide (0 < c.Amount)) &&
    decide (List.Pairwise (fun a b : Coin => stringLess a.Denom b.Denom = true) coins)

/-- The constructor `sdk.NewCoins`: zero coins are removed, the rest is sorted by
denomination, and the result must validate, else it panics (`none`). -/
def NewCoins (coins : List Coin) : Option Coins :=
  let newCoins := (coins.filter (fun c => c.Amount ≠ 0)).insertionSort
    (fun a b => stringLess b.Denom a.Denom = false)
  if Coins.IsValid newCoins then some newCoins else none

/-- The method `Coins.AmountOf`: the amount held in `denom`, zero when absent. -/
def Coins.AmountOf (coins : Coins) (denom : String) : Int :=
  match coins.find? (fun c => c.Denom = denom) with
  | some c => c.Amount
  | none => 0

/-- The method `Coins.IsAllGTE`: every coin of `coinsB` is covered by `coins`. -/
def Coins.IsAllGTE (coins coinsB : Coins) : Bool :=
  if coinsB.length = 0 then true
  else if coins.length = 0 then false
  else coinsB.all (fun coinB => !decide (coins.AmountOf coinB.Denom < coinB.Amount))

/-- The method `Coins.IsZero`: every coin has a zero amount. -/
def Coins.IsZero (coins : Coins) : Bool :=
  coins.all (fun coin => decide (coin.Amount = 0))

/-! ## The keeper: parameters, dust store, bank keeper, logger -/

/-- The module accounts the keeper moves coins between: `types.YieldIntermediatePoolAccount`
(the "verana pool"; the hard-coded address `cosmos1jjfey42zhnwrpv8pmpxgp2jwukcy3emfsewffz`
whose balance the keeper reads is taken to be the address of this module account),
`types.ModuleName` (the trust deposit module) and `protocolpooltypes.ModuleName`
(the community pool). -/
inductive ModuleAccount where
  | YieldIntermediatePoolAccount
  | ModuleName
  | ProtocolPool
deriving DecidableEq, Repr

/-- The errors the collaborators of the keeper can return. -/
inductive Err where
  | paramsGet
  | dustGet
  | dustSet
  | invalidCoins
  | insufficientFunds
  | sendRestricted
deriving DecidableEq, Repr

/-- Modelled from the spec: the type `types.Params`, declared outside `abci.go`; the
parameters are `trustDepositValue` (a non-negative integer, a `uint64` converted with
`int64(...)` by the keeper) and `trustDepositYieldRate` (a decimal, annual rate). -/
structure Params where
  TrustDepositValue : Nat
  TrustDepositYieldRate : LegacyDec
deriving DecidableEq, Repr

/-- The lines the keeper writes to `ctx.Logger()`. -/
inductive LogEntry where
  | transferredYield (amount : Coins) (remainingDust : LegacyDec)
  | accumulatedDust (totalDust : LegacyDec)
  | sentBack (amount : Coins)
deriving DecidableEq, Repr

/-- The bank keeper behind `k.bankKeeper`: the balance of each module account, and the
pairs (sender, recipient) that a send restriction rejects. -/
structure BankKeeper where
  balances : ModuleAccount → Coins
  restricted : List (ModuleAccount × ModuleAccount)

/-- The state a keeper method runs on (`sdk.Context` and the keeper's stores): the
stored params (`none`: `k.Params.Get` fails), the stored dust (`none`: never written),
whether the dust store fails on read or on write, the bank, and the log. -/
structure Ctx where
  params : Option Params
  dust : Option LegacyDec
  dustGetFails : Bool
  dustSetFails : Bool
  bankKeeper : BankKeeper
  logger : List LogEntry

/-- The result of a keeper method: it returned `nil`, it returned an error (with the
state as it was left), or it panicked. -/
inductive Outcome where
  | ok (ctx : Ctx)
  | failed (err : Err) (ctx : Ctx)
  | panicked

/-- The call `k.Params.Get(ctx)`. -/
def ParamsGet (ctx : Ctx) : Except Err Params :=
  match ctx.params with
  | some params => .ok params
  | none => .error Err.paramsGet

/-- Modelled from the spec: `Keeper.GetDustAmount`, defined outside `abci.go`. The dust
store's `GetDust() → Decimal, error`; the dust is created implicitly at first use and
defaults to 0. -/
def GetDustAmount (ctx : Ctx) : Except Err LegacyDec :=
  if ctx.dustGetFails then .error Err.dustGet
  else .ok (ctx.dust.getD ⟨0⟩)

/-- Modelled from the spec: `Keeper.SetDustAmount`, defined outside `abci.go`. The dust
store's `SetDust(Decimal) → error`; on success the stored dust is the value written. -/
def SetDustAmount (ctx : Ctx) (dust : LegacyDec) : Except Err Ctx :=
  if ctx.dustSetFails then .error Err.dustSet
  else .ok { ctx with dust := some dust }

/-- The call `ctx.Logger().Info(...)` or `ctx.Logger().Debug(...)`. -/
def Ctx.log (ctx : Ctx) (entry : LogEntry) : Ctx :=
  { ctx with logger := ctx.logger ++ [entry] }

/-- The bank store's `setBalance` for one denomination: the old entry is removed, and a
non-zero balance is stored at its place in the order of denominations. -/
def Coins.setBalance (balance : Coins) (denom : String) (amount : Int) : Coins :=
  let others := balance.filter (fun c => c.Denom ≠ denom)
  if amount = 0 then others
  else others.orderedInsert (fun a b => stringLess b.Denom a.Denom = false) ⟨denom, amount⟩

/-- The bank's `subUnlockedCoins`: each coin of `amt` in turn is taken from the balance;
`none` when the balance in a denomination is less than the coin. -/
def subUnlockedCoins : Coins → Coins → Option Coins
  | balance, [] => some balance
  | balance, coin :: amt =>
    if balance.AmountOf coin.Denom < coin.Amount then none
    else subUnlockedCoins
      (balance.setBalance coin.Denom (balance.AmountOf coin.Denom - coin.Amount)) amt

/-- The bank's `addCoins`: each coin of `amt` in turn is added to the balance. -/
def addCoins : Coins → Coins → Coins
  | balance, [] => balance
  | balance, coin :: amt =>
    addCoins (balance.setBalance coin.Denom (balance.AmountOf coin.Denom + coin.Amount)) amt

/-- Modelled from the spec: the call `k.bankKeeper.GetAllBalances(ctx, addr)` of the
`BankKeeper` interface, whose implementation is outside `abci.go`; the balance oracle
`GetBalance(accountRef) → CoinSet`. -/
def BankKeeper.GetAllBalances (k : BankKeeper) (addr : ModuleAccount) : Coins :=
  k.balances addr

/-- Modelled from the spec: the call
`k.bankKeeper.SendCoinsFromModuleToModule(ctx, sender, recipient, amt)` of the
`BankKeeper` interface, whose implementation is outside `abci.go`; the atomic transfer
primitive `Transfer(from, to, CoinSet) → error`, which guarantees all-or-nothing movement
and fails with an insufficiency error if `from` lacks funds, or on an account
restriction. As in the bank module of the SDK, a coin set that is not valid is rejected
too. On an error the bank is unchanged. -/
def BankKeeper.SendCoinsFromModuleToModule (k : BankKeeper)
    (senderModule recipientModule : ModuleAccount) (amt : Coins) : Except Err BankKeeper :=
  if (senderModule, recipientModule) ∈ k.restricted then .error Err.sendRestricted
  else if !amt.IsValid then .error Err.invalidCoins
  else
    match subUnlockedCoins (k.balances senderModule) amt with
    | none => .error Err.insufficientFunds
    | some senderBalance =>
      let balances := Function.update k.balances senderModule senderBalance
      .ok { k with balances :=
        Function.update balances recipientModule (addCoins (balances recipientModule) amt) }

/-! ## x/td/keeper/abci.go -/

/-- Lines 34 to 46 of `CalculateAndSendAmountFromYieldIntermediatePool`: the per-block
yield `(trust_deposit_value * trust_deposit_yield_rate) / blocks_per_year`, `none` when
a decimal operation panics. -/
def perBlockYield (params : Params) : Option LegacyDec :=
  let blocksPerYear := NewInt 6311520
  let trustDepositValue := LegacyNewDecFromInt (NewInt (int64 params.TrustDepositValue))
  let yieldRate := params.TrustDepositYieldRate
  match trustDepositValue.Mul yieldRate with
  | none => none
  | some annualYield => annualYield.Quo (LegacyNewDecFromInt blocksPerYear)

/-- The method `Keeper.CalculateAndSendAmountFromYieldIntermediatePool`. -/
def CalculateAndSendAmountFromYieldIntermediatePool (ctx : Ctx) : Outcome :=
  match ParamsGet ctx with
  | .error err => Outcome.failed err ctx
  | .ok params =>
  match perBlockYield params with
  | none => Outcome.panicked
  | some perBlockYield =>
  match GetDustAmount ctx with
  | .error err => Outcome.failed err ctx
  | .ok currentDust =>
  match currentDust.Add perBlockYield with
  | none => Outcome.panicked
  | some maxPerBlockYieldAmountAllowable =>
  let microUnitThreshold := LegacyNewDec 1
  if maxPerBlockYieldAmountAllowable.GTE microUnitThreshold then
    match maxPerBlockYieldAmountAllowable.TruncateInt with
    | none => Outcome.panicked
    | some transferAmount =>
    match NewCoin "uvna" transferAmount with
    | none => Outcome.panicked
    | some coin =>
    match NewCoins [coin] with
    | none => Outcome.panicked
    | some transferCoins =>
    let yieldIntermediatePoolBalance :=
      ctx.bankKeeper.GetAllBalances ModuleAccount.YieldIntermediatePoolAccount
    if !yieldIntermediatePoolBalance.IsAllGTE transferCoins then Outcome.ok ctx
    else
      match ctx.bankKeeper.SendCoinsFromModuleToModule
          ModuleAccount.YieldIntermediatePoolAccount ModuleAccount.ModuleName transferCoins with
      | .error err => Outcome.failed err ctx
      | .ok bank =>
      let ctx1 := { ctx with bankKeeper := bank }
      let transferredAmount := LegacyNewDecFromInt transferAmount
      match maxPerBlockYieldAmountAllowable.Sub transferredAmount with
      | none => Outcome.panicked
      | some remainingDust =>
      match SetDustAmount ctx1 remainingDust with
      | .error err => Outcome.failed err ctx1
      | .ok ctx2 => Outcome.ok (ctx2.log (LogEntry.transferredYield transferCoins remainingDust))
  else
    match SetDustAmount ctx maxPerBlockYieldAmountAllowable with
    | .error err => Outcome.failed err ctx
    | .ok ctx1 => Outcome.ok (ctx1.log (LogEntry.accumulatedDust maxPerBlockYieldAmountAllowable))

/-- The method `Keeper.SendFundsBackToCommunityPool`. -/
def SendFundsBackToCommunityPool (ctx : Ctx) : Outcome :=
  let yieldIntermediatePoolBalance :=
    ctx.bankKeeper.GetAllBalances ModuleAccount.YieldIntermediatePoolAccount
  if yieldIntermediatePoolBalance.IsZero then Outcome.ok ctx
  else
    match ctx.bankKeeper.SendCoinsFromModuleToModule
        ModuleAccount.YieldIntermediatePoolAccount ModuleAccount.ProtocolPool
        yieldIntermediatePoolBalance with
    | .error err => Outcome.failed err ctx
    | .ok bank =>
      Outcome.ok ({ ctx with bankKeeper := bank }.log (LogEntry.sentBack yieldIntermediatePoolBalance))

/-- The method `Keeper.BeginBlocker`: the engine, then the sweep. -/
def BeginBlocker (ctx : Ctx) : Outcome :=
  match CalculateAndSendAmountFromYieldIntermediatePool ctx with
  | Outcome.failed err ctx1 => Outcome.failed err ctx1
  | Outcome.panicked => Outcome.panicked
  | Outcome.ok ctx1 =>
    match SendFundsBackToCommunityPool ctx1 with
    | Outcome.failed err ctx2 => Outcome.failed err ctx2
    | Outcome.panicked => Outcome.panicked
    | Outcome.ok ctx2 => Outcome.ok ctx2

/-- The balance of a module account in one denomination. -/
def Ctx.balance (ctx : Ctx) (addr : ModuleAccount) (denom : String) : Int :=
  (ctx.bankKeeper.GetAllBalances addr).AmountOf denom

/-- The stored dust as `GetDustAmount` reads it when the read succeeds. -/
def Ctx.dustValue (ctx : Ctx) : LegacyDec := ctx.dust.getD ⟨0⟩

/-- Run `next` on the state a successful method left; an error or a panic ends the run. -/
def Outcome.andThen (o : Outcome) (next : Ctx → Outcome) : Outcome :=
  match o with
  | Outcome.ok ctx => next ctx
  | Outcome.failed err ctx => Outcome.failed err ctx
  | Outcome.panicked => Outcome.panicked

/-! ## Example states -/

/-- An example bank: the pool holds `pool`, the trust deposit module and the community
pool hold nothing, and the listed sends are rejected. -/
def exampleBank (pool : Coins) (restricted : List (ModuleAccount × ModuleAccount)) :
    BankKeeper :=
  { balances := fun addr =>
      match addr with
      | ModuleAccount.YieldIntermediatePoolAccount => pool
      | ModuleAccount.ModuleName => []
      | ModuleAccount.ProtocolPool => []
    restricted := restricted }

/-- An example state: yield rate 0.05, the given trust deposit value, raw dust and pool
balance, working stores, no send restriction, an empty log. -/
def exampleCtx (trustDepositValue : Nat) (dust : Int) (pool : Coins) : Ctx :=
  { params := some ⟨trustDepositValue, ⟨50000000000000000⟩⟩
    dust := some ⟨dust⟩
    dustGetFails := false
    dustSetFails := false
    bankKeeper := exampleBank pool []
    logger := [] }

/-- An example state for a Transfer: trust deposit value 10^9 at rate 0.05 (per-block
yield 7.922021953507237559), dust 0.5, 1000 uvna in the pool. -/
def transferExample : Ctx := exampleCtx 1000000000 500000000000000000 [⟨"uvna", 1000⟩]

/-- The state the engine leaves from `transferExample`: 992 uvna in the pool, 8 uvna in
the trust deposit module, dust 0.422021953507237559. -/
def transferExampleResult : Ctx :=
  { transferExample with
    bankKeeper :=
      { balances :=
          Function.update
            (Function.update transferExample.bankKeeper.balances
              ModuleAccount.YieldIntermediatePoolAccount [⟨"uvna", 992⟩])
            ModuleAccount.ModuleName [⟨"uvna", 8⟩]
        restricted := [] }
    dust := some ⟨422021953507237559⟩
    logger := [LogEntry.transferredYield [⟨"uvna", 8⟩] ⟨422021953507237559⟩] }

/-- An example state for the sweep: the pool holds 3 uatom and 1000 uvna. -/
def sweepExample : Ctx := exampleCtx 1000000 0 [⟨"uatom", 3⟩, ⟨"uvna", 1000⟩]

/-- The state the sweep leaves from `sweepExample`: the pool is empty and the community
pool holds the 3 uatom and 1000 uvna. -/
def sweepExampleResult : Ctx :=
  { sweepExample with
    bankKeeper :=
      { balances :=
          Function.update
            (Function.update sweepExample.bankKeeper.balances
              ModuleAccount.YieldIntermediatePoolAccount [])
            ModuleAccount.ProtocolPool [⟨"uatom", 3⟩, ⟨"uvna", 1000⟩]
        restricted := [] }
    logger := [LogEntry.sentBack [⟨"uatom", 3⟩, ⟨"uvna", 1000⟩]] }

/-- An example state for a whole step: trust deposit value 10^9, dust 0.5, and a pool
holding 3 uatom and 1000 uvna. -/
def stepExample : Ctx := exampleCtx 1000000000 500000000000000000 [⟨"uatom", 3⟩, ⟨"uvna", 1000⟩]

/-- The state `BeginBlocker` leaves from `stepExample`: 8 uvna in the trust deposit
module, 3 uatom and 992 uvna in the community pool, an empty pool, dust
0.422021953507237559. -/
def stepExampleResult : Ctx :=
  { stepExample with
    bankKeeper :=
      { balances :=
          Function.update
            (Function.update
              (Function.update
                (Function.update stepExample.bankKeeper.balances
                  ModuleAccount.YieldIntermediatePoolAccount [⟨"uatom", 3⟩, ⟨"uvna", 992⟩])
                ModuleAccount.ModuleName [⟨"uvna", 8⟩])
              ModuleAccount.YieldIntermediatePoolAccount [])
            ModuleAccount.ProtocolPool [⟨"uatom", 3⟩, ⟨"uvna", 992⟩]
        restricted := [] }
    dust := some ⟨422021953507237559⟩
    logger := [LogEntry.transferredYield [⟨"uvna", 8⟩] ⟨422021953507237559⟩,
      LogEntry.sentBack [⟨"uatom", 3⟩, ⟨"uvna", 992⟩]] }

/-- An example state in which the bank rejects sends from the pool to the trust deposit
module: trust deposit value 10^9, dust 0.5, 3 uatom and 1000 uvna in the pool. -/
def restrictedExample : Ctx :=
  { stepExample with
    bankKeeper := exampleBank [⟨"uatom", 3⟩, ⟨"uvna", 1000⟩]
      [(ModuleAccount.YieldIntermediatePoolAccount, ModuleAccount.ModuleName)] }

/-- An example state whose params cannot be read. -/
def noParamsExample : Ctx := { stepExample with params := none }

/-- An example state whose dust cannot be read. -/
def noDustExample : Ctx := { stepExample with dustGetFails := true }

/-- Scenario A of the spec: trust deposit value 10^9, yield rate 0.05, dust 0, and
1000 uvna in the pool. -/
def scenarioA : Ctx := exampleCtx 1000000000 0 [⟨"uvna", 1000⟩]

/-- The state the engine leaves from `scenarioA`: 993 uvna in the pool, 7 uvna in the
trust deposit module, dust 0.922021953507237559. -/
def scenarioAEngineResult : Ctx :=
  { scenarioA with
    bankKeeper :=
      { balances :=
          Function.update
            (Function.update scenarioA.bankKeeper.balances
              ModuleAccount.YieldIntermediatePoolAccount [⟨"uvna", 993⟩])
            ModuleAccount.ModuleName [⟨"uvna", 7⟩]
        restricted := [] }
    dust := some ⟨922021953507237559⟩
    logger := [LogEntry.transferredYield [⟨"uvna", 7⟩] ⟨922021953507237559⟩] }

/-- The state `BeginBlocker` leaves from `scenarioA`: the sweep has moved the remaining
993 uvna of `scenarioAEngineResult` to the community pool. -/
def scenarioAResult : Ctx :=
  { scenarioAEngineResult with
    bankKeeper :=
      { balances :=
          Function.update
            (Function.update scenarioAEngineResult.bankKeeper.balances
              ModuleAccount.YieldIntermediatePoolAccount [])
            ModuleAccount.ProtocolPool [⟨"uvna", 993⟩]
        restricted := [] }
    logger := [LogEntry.transferredYield [⟨"uvna", 7⟩] ⟨922021953507237559⟩,
      LogEntry.sentBack [⟨"uvna", 993⟩]] }

/-- Scenario B of the spec: as scenario A, with the dust pre-loaded to 0.99999. -/
def scenarioB : Ctx := exampleCtx 1000000000 999990000000000000 [⟨"uvna", 1000⟩]

/-- The state the engine leaves from `scenarioB`: 992 uvna in the pool, 8 uvna in the
trust deposit module, dust 0.922011953507237559. -/
def scenarioBEngineResult : Ctx :=
  { scenarioB with
    bankKeeper :=
      { balances :=
          Function.update
            (Function.update scenarioB.bankKeeper.balances
              ModuleAccount.YieldIntermediatePoolAccount [⟨"uvna", 992⟩])
            ModuleAccount.ModuleName [⟨"uvna", 8⟩]
        restricted := [] }
    dust := some ⟨922011953507237559⟩
    logger := [LogEntry.transferredYield [⟨"uvna", 8⟩] ⟨922011953507237559⟩] }

/-- An example state at the threshold: trust deposit value 10^6 (per-block yield
0.007922021953507238), dust 0.992077978046492762, so that the candidate is exactly 1;
1000 uvna in the pool. -/
def boundaryExample : Ctx := exampleCtx 1000000 992077978046492762 [⟨"uvna", 1000⟩]

/-- Scenario C of the spec: a candidate of 8.422021953507237559 and an empty pool. -/
def scenarioC : Ctx := exampleCtx 1000000000 500000000000000000 []

/-- The dust values the engine can reach: a start value in `[0, 1)` (in particular the
default 0), and the dust left by any successful run of the engine from a state whose
dust is reachable and whose per-block yield is non-negative. Between two runs everything
but the dust may change. -/
inductive DustReachable : LegacyDec → Prop where
  | start (d : LegacyDec) (h0 : 0 ≤ d.i) (h1 : d.i < precisionReuse) : DustReachable d
  | step (ctx ctx' : Ctx) (hreach : DustReachable ctx.dustValue)
      (hyield : ∃ params y, ParamsGet ctx = .ok params ∧ perBlockYield params = some y ∧
        0 ≤ y.i)
      (hstep : CalculateAndSendAmountFromYieldIntermediatePool ctx = Outcome.ok ctx') :
      DustReachable ctx'.dustValue

end Verana

namespace Verana

set_option exponentiation.threshold 512

/-! ## Decimal arithmetic -/

theorem precisionReuse_eq : precisionReuse = 1000000000000000000 := by
  unfold precisionReuse; norm_num

theorem truncateInt_eq (c : LegacyDec) (n : Int) (hc : precisionReuse ≤ c.i)
    (h : c.TruncateInt = some n) :
    n = c.i / precisionReuse ∧ 1 ≤ n ∧ 0 ≤ c.i - n * precisionReuse ∧
      c.i - n * precisionReuse < precisionReuse := by
  have hp : (0 : Int) < precisionReuse := by rw [precisionReuse_eq]; norm_num
  have hci : (0 : Int) ≤ c.i := le_trans (le_of_lt hp) hc
  unfold LegacyDec.TruncateInt at h
  simp only [Int.tdiv_eq_ediv hci (le_of_lt hp)] at h
  split at h
  · injection h with h
    subst h
    have h1 : 1 ≤ c.i / precisionReuse := by
      rw [Int.le_ediv_iff_mul_le hp]; simpa using hc
    have h2 := Int.emod_nonneg c.i (ne_of_gt hp)
    have h3 := Int.emod_lt_of_pos c.i hp
    have h4 := Int.emod_def c.i precisionReuse
    have h5 : c.i / precisionReuse * precisionReuse = precisionReuse * (c.i / precisionReuse) :=
      mul_comm _ _
    refine ⟨rfl, h1, ?_, ?_⟩ <;> omega
  · exact absurd h (by simp)

theorem sub_truncated (c : LegacyDec) (n : Int) (hc : precisionReuse ≤ c.i)
    (h : c.TruncateInt = some n) :
    c.Sub (LegacyNewDecFromInt n) = some ⟨c.i - n * precisionReuse⟩ := by
  obtain ⟨_, _, h0, h1⟩ := truncateInt_eq c n hc h
  unfold LegacyDec.Sub LegacyNewDecFromInt
  have hb : bitLenLE (c.i - n * precisionReuse) maxDecBitLen = true := by
    unfold bitLenLE maxDecBitLen
    rw [decide_eq_true_eq]
    rw [precisionReuse_eq] at h0 h1
    rw [precisionReuse_eq]
    have : ((c.i - n * 1000000000000000000).natAbs : Int) < ((2 ^ 316 : Nat) : Int) := by
      rw [Int.natAbs_of_nonneg h0]
      calc c.i - n * 1000000000000000000 < 1000000000000000000 := h1
        _ < ((2 ^ 316 : Nat) : Int) := by norm_num
    exact_mod_cast this
  simp [hb]

theorem newCoin_uvna (n : Int) (h : 1 ≤ n) : NewCoin "uvna" n = some ⟨"uvna", n⟩ := by
  have h0 : 0 ≤ n := by omega
  have hv : ValidateDenom "uvna" = true := by decide
  simp [NewCoin, hv, h0]

theorem newCoins_uvna (n : Int) (h : 1 ≤ n) :
    NewCoins [⟨"uvna", n⟩] = some [⟨"uvna", n⟩] := by
  have h0 : n ≠ 0 := by omega
  have h1 : 0 < n := by omega
  have hv : ValidateDenom "uvna" = true := by decide
  simp [NewCoins, Coins.IsValid, h0, h1, hv]

/-! ## Coins and the bank -/

theorem amountOf_nil (d : String) : Coins.AmountOf [] d = 0 := rfl

theorem amountOf_cons (c : Coin) (cs : Coins) (d : String) :
    Coins.AmountOf (c :: cs) d = if c.Denom = d then c.Amount else Coins.AmountOf cs d := by
  unfold Coins.AmountOf
  by_cases h : c.Denom = d <;> simp [List.find?, h]

theorem amountOf_filter_ne (bal : Coins) (d d' : String) :
    Coins.AmountOf (bal.filter (fun c => c.Denom ≠ d)) d' =
      if d' = d then 0 else Coins.AmountOf bal d' := by
  induction bal with
  | nil => simp [amountOf_nil]
  | cons c cs ih =>
    by_cases hc : c.Denom = d
    · have : List.filter (fun c => decide (c.Denom ≠ d)) (c :: cs) =
          List.filter (fun c => decide (c.Denom ≠ d)) cs := by simp [List.filter, hc]
      rw [this, ih, amountOf_cons]
      by_cases hd : d' = d
      · simp [hd]
      · have : ¬ c.Denom = d' := by rw [hc]; exact fun h => hd h.symm
        simp [hd, this]
    · have : List.filter (fun c => decide (c.Denom ≠ d)) (c :: cs) =
          c :: List.filter (fun c => decide (c.Denom ≠ d)) cs := by simp [List.filter, hc]
      rw [this, amountOf_cons, ih, amountOf_cons]
      by_cases hd : d' = d
      · subst hd
        simp [hc]
      · simp [hd]

theorem amountOf_orderedInsert (c : Coin) (l : Coins) (d' : String)
    (h : ∀ x ∈ l, x.Denom ≠ c.Denom) :
    Coins.AmountOf (l.orderedInsert (fun a b => stringLess b.Denom a.Denom = false) c) d' =
      if c.Denom = d' then c.Amount else Coins.AmountOf l d' := by
  induction l with
  | nil => simp [amountOf_cons, amountOf_nil]
  | cons b l ih =>
    have hb : b.Denom ≠ c.Denom := h b (List.mem_cons_self _ _)
    have ih' := ih (fun x hx => h x (List.mem_cons_of_mem _ hx))
    rw [List.orderedInsert]
    split
    · rw [amountOf_cons]
    · rw [amountOf_cons, ih', amountOf_cons]
      by_cases hbd : b.Denom = d'
      · have : ¬ c.Denom = d' := fun e => hb (hbd.trans e.symm)
        simp [hbd, this]
      · simp [hbd]

theorem amountOf_setBalance (bal : Coins) (d : String) (a : Int) (d' : String) :
    Coins.AmountOf (bal.setBalance d a) d' = if d' = d then a else Coins.AmountOf bal d' := by
  unfold Coins.setBalance
  by_cases ha : a = 0
  · simp only [ha, if_true]
    exact amountOf_filter_ne bal d d'
  · simp only [ha, if_false]
    rw [amountOf_orderedInsert, amountOf_filter_ne]
    · by_cases hd : d' = d
      · simp [hd]
      · have : ¬ d = d' := fun h => hd h.symm
        simp [hd, this]
    · intro x hx
      simpa using (List.mem_filter.mp hx).2

theorem amountOf_eq_zero_of_not_mem (cs : Coins) (d : String)
    (h : ∀ c ∈ cs, c.Denom ≠ d) : Coins.AmountOf cs d = 0 := by
  induction cs with
  | nil => rfl
  | cons c cs ih =>
    rw [amountOf_cons]
    have h1 : ¬ c.Denom = d := h c (List.mem_cons_self _ _)
    simp only [h1, if_false]
    exact ih (fun x hx => h x (List.mem_cons_of_mem _ hx))

theorem amountOf_subUnlockedCoins (amt : Coins)
    (hnd : List.Pairwise (fun a b : Coin => a.Denom ≠ b.Denom) amt) :
    ∀ (bal bal' : Coins), subUnlockedCoins bal amt = some bal' →
      ∀ d, Coins.AmountOf bal' d = Coins.AmountOf bal d - Coins.AmountOf amt d := by
  induction amt with
  | nil =>
    intro bal bal' h d
    simp only [subUnlockedCoins, Option.some.injEq] at h
    simp [h, amountOf_nil]
  | cons coin amt ih =>
    intro bal bal' h d
    rw [List.pairwise_cons] at hnd
    simp only [subUnlockedCoins] at h
    split at h
    · exact absurd h (by simp)
    · rw [ih hnd.2 _ _ h d, amountOf_setBalance, amountOf_cons]
      by_cases hd : d = coin.Denom
      · have h0 : Coins.AmountOf amt d = 0 :=
          amountOf_eq_zero_of_not_mem amt d (fun x hx => by rw [hd]; exact (hnd.1 x hx).symm)
        simp [hd] at h0 ⊢
        omega
      · have : ¬ coin.Denom = d := fun h => hd h.symm
        simp [hd, this]

theorem amountOf_addCoins (amt : Coins)
    (hnd : List.Pairwise (fun a b : Coin => a.Denom ≠ b.Denom) amt) :
    ∀ (bal : Coins) (d : String),
      Coins.AmountOf (addCoins bal amt) d = Coins.AmountOf bal d + Coins.AmountOf amt d := by
  induction amt with
  | nil => intro bal d; simp [addCoins, amountOf_nil]
  | cons coin amt ih =>
    intro bal d
    rw [List.pairwise_cons] at hnd
    simp only [addCoins]
    rw [ih hnd.2, amountOf_setBalance, amountOf_cons]
    by_cases hd : d = coin.Denom
    · have h0 : Coins.AmountOf amt d = 0 :=
        amountOf_eq_zero_of_not_mem amt d (fun x hx => by rw [hd]; exact (hnd.1 x hx).symm)
      simp [hd] at h0 ⊢
      omega
    · have : ¬ coin.Denom = d := fun h => hd h.symm
      simp [hd, this]

theorem lexLess_irrefl (l : List Char) : lexLess l l = false := by
  induction l with
  | nil => rfl
  | cons a l ih => simp [lexLess, ih]

theorem isValid_pairwise_ne (amt : Coins) (h : amt.IsValid = true) :
    List.Pairwise (fun a b : Coin => a.Denom ≠ b.Denom) amt := by
  unfold Coins.IsValid at h
  rw [Bool.and_eq_true, decide_eq_true_eq] at h
  refine h.2.imp ?_
  intro a b hlt heq
  rw [heq, stringLess, lexLess_irrefl] at hlt
  exact absurd hlt (by simp)

theorem send_ok (k k' : BankKeeper) (s r : ModuleAccount) (amt : Coins) (hsr : s ≠ r)
    (h : k.SendCoinsFromModuleToModule s r amt = .ok k') :
    (∀ d, Coins.AmountOf (k'.balances s) d =
        Coins.AmountOf (k.balances s) d - Coins.AmountOf amt d) ∧
    (∀ d, Coins.AmountOf (k'.balances r) d =
        Coins.AmountOf (k.balances r) d + Coins.AmountOf amt d) ∧
    (∀ a, a ≠ s → a ≠ r → k'.balances a = k.balances a) ∧
    k'.restricted = k.restricted ∧ (s, r) ∉ k.restricted := by
  unfold BankKeeper.SendCoinsFromModuleToModule at h
  split at h
  · exact absurd h (by simp)
  · rename_i hres
    split at h
    · exact absurd h (by simp)
    · rename_i hval
      have hval' : amt.IsValid = true := by simpa using hval
      have hnd := isValid_pairwise_ne amt hval'
      split at h
      · exact absurd h (by simp)
      · rename_i senderBalance hsub
        injection h with h
        subst h
        have hrs : r ≠ s := fun e => hsr e.symm
        refine ⟨?_, ?_, ?_, rfl, hres⟩
        · intro d
          simp only [Function.update_noteq hsr, Function.update_same]
          exact amountOf_subUnlockedCoins amt hnd _ _ hsub d
        · intro d
          simp only [Function.update_same, Function.update_noteq hrs]
          exact amountOf_addCoins amt hnd _ d
        · intro a has har
          simp only [Function.update_noteq har, Function.update_noteq has]

/-! ## The engine, case by case -/

/-- Every successful run of the engine is an Accumulate, a Skip or a Transfer, with the
final state spelled out. -/
theorem engine_ok_cases (ctx ctx' : Ctx)
    (h : CalculateAndSendAmountFromYieldIntermediatePool ctx = Outcome.ok ctx') :
    ∃ params y d c, ParamsGet ctx = .ok params ∧ perBlockYield params = some y ∧
      GetDustAmount ctx = .ok d ∧ d.Add y = some c ∧
      ((c.i < precisionReuse ∧ ctx.dustSetFails = false ∧
          ctx' = { ctx with dust := some c, logger := ctx.logger ++ [LogEntry.accumulatedDust c] })
        ∨ (precisionReuse ≤ c.i ∧ ∃ n, c.TruncateInt = some n ∧
            (ctx.bankKeeper.GetAllBalances ModuleAccount.YieldIntermediatePoolAccount).IsAllGTE
              [⟨"uvna", n⟩] = false ∧ ctx' = ctx)
        ∨ (precisionReuse ≤ c.i ∧ ∃ n bank, c.TruncateInt = some n ∧
            (ctx.bankKeeper.GetAllBalances ModuleAccount.YieldIntermediatePoolAccount).IsAllGTE
              [⟨"uvna", n⟩] = true ∧
            ctx.bankKeeper.SendCoinsFromModuleToModule ModuleAccount.YieldIntermediatePoolAccount
              ModuleAccount.ModuleName [⟨"uvna", n⟩] = .ok bank ∧
            ctx.dustSetFails = false ∧
            ctx' = { ctx with
              bankKeeper := bank, dust := some ⟨c.i - n * precisionReuse⟩,
              logger := ctx.logger ++
                [LogEntry.transferredYield [⟨"uvna", n⟩] ⟨c.i - n * precisionReuse⟩] })) := by
  unfold CalculateAndSendAmountFromYieldIntermediatePool at h
  cases hP : ParamsGet ctx with
  | error e => simp [hP] at h
  | ok params =>
  cases hY : perBlockYield params with
  | none => simp [hP, hY] at h
  | some y =>
  cases hD : GetDustAmount ctx with
  | error e => simp [hP, hY, hD] at h
  | ok d =>
  cases hA : d.Add y with
  | none => simp [hP, hY, hD, hA] at h
  | some c =>
  refine ⟨params, y, d, c, rfl, hY, rfl, hA, ?_⟩
  simp only [hP, hY, hD, hA] at h
  by_cases hge : c.GTE (LegacyNewDec 1) = true
  · have hc : precisionReuse ≤ c.i := by
      simpa [LegacyDec.GTE, LegacyNewDec] using hge
    simp only [hge, if_true] at h
    cases hT : c.TruncateInt with
    | none => simp [hT] at h
    | some n =>
    have hn := (truncateInt_eq c n hc hT).2.1
    simp only [hT, newCoin_uvna n hn, newCoins_uvna n hn, sub_truncated c n hc hT] at h
    by_cases hG : (ctx.bankKeeper.GetAllBalances
        ModuleAccount.YieldIntermediatePoolAccount).IsAllGTE [⟨"uvna", n⟩] = true
    · right; right
      simp only [hG, Bool.not_true, Bool.false_eq_true, if_false] at h
      cases hS : ctx.bankKeeper.SendCoinsFromModuleToModule
          ModuleAccount.YieldIntermediatePoolAccount ModuleAccount.ModuleName [⟨"uvna", n⟩] with
      | error e => simp [hS] at h
      | ok bank =>
        simp only [hS] at h
        by_cases hW : ctx.dustSetFails = true
        · simp [SetDustAmount, hW] at h
        · have hW' : ctx.dustSetFails = false := by simpa using hW
          simp only [SetDustAmount, hW', Bool.false_eq_true, if_false, Ctx.log,
            Outcome.ok.injEq] at h
          refine ⟨hc, n, bank, rfl, hG, hS, hW', ?_⟩
          rw [hW']
          exact h.symm
    · right; left
      have hG' : (ctx.bankKeeper.GetAllBalances
        ModuleAccount.YieldIntermediatePoolAccount).IsAllGTE [⟨"uvna", n⟩] = false := by
        simpa using hG
      simp only [hG', Bool.not_false, if_true, Outcome.ok.injEq] at h
      exact ⟨hc, n, rfl, hG', h.symm⟩
  · left
    have hc : c.i < precisionReuse := by
      simpa [LegacyDec.GTE, LegacyNewDec] using hge
    simp only [hge, Bool.false_eq_true, if_false] at h
    by_cases hW : ctx.dustSetFails = true
    · simp [SetDustAmount, hW] at h
    · have hW' : ctx.dustSetFails = false := by simpa using hW
      simp only [SetDustAmount, hW', Bool.false_eq_true, if_false, Ctx.log,
        Outcome.ok.injEq] at h
      refine ⟨hc, hW', ?_⟩
      rw [hW']
      exact h.symm

theorem isAllGTE_single (bal : Coins) (denom : String) (n : Int) (hn : 1 ≤ n) :
    bal.IsAllGTE [⟨denom, n⟩] = decide (n ≤ bal.AmountOf denom) := by
  unfold Coins.IsAllGTE
  cases bal with
  | nil =>
    have : ¬ n ≤ 0 := by omega
    simp [amountOf_nil, this]
  | cons c cs =>
    by_cases h : n ≤ Coins.AmountOf (c :: cs) denom
    · have h' : ¬ Coins.AmountOf (c :: cs) denom < n := by omega
      simp [h, h']
    · have h' : Coins.AmountOf (c :: cs) denom < n := by omega
      simp [h, h']

theorem send_single_ok (k : BankKeeper) (s r : ModuleAccount) (n : Int) (hn : 1 ≤ n)
    (hres : (s, r) ∉ k.restricted) (hbal : n ≤ Coins.AmountOf (k.balances s) "uvna") :
    ∃ bank, k.SendCoinsFromModuleToModule s r [⟨"uvna", n⟩] = .ok bank := by
  have h1 : 0 < n := by omega
  have h2 : ¬ Coins.AmountOf (k.balances s) "uvna" < n := by omega
  have hv : ValidateDenom "uvna" = true := by decide
  simp [BankKeeper.SendCoinsFromModuleToModule, hres, Coins.IsValid, hv, h1, subUnlockedCoins, h2]

theorem engine_transfer (ctx : Ctx) (params : Params) (y d c : LegacyDec) (n : Int)
    (bank : BankKeeper)
    (hP : ParamsGet ctx = .ok params) (hY : perBlockYield params = some y)
    (hD : GetDustAmount ctx = .ok d) (hA : d.Add y = some c)
    (hc : precisionReuse ≤ c.i) (hT : c.TruncateInt = some n)
    (hbal : n ≤ ctx.balance ModuleAccount.YieldIntermediatePoolAccount "uvna")
    (hS : ctx.bankKeeper.SendCoinsFromModuleToModule ModuleAccount.YieldIntermediatePoolAccount
      ModuleAccount.ModuleName [⟨"uvna", n⟩] = .ok bank)
    (hW : ctx.dustSetFails = false) :
    CalculateAndSendAmountFromYieldIntermediatePool ctx =
      Outcome.ok { ctx with
        bankKeeper := bank, dust := some ⟨c.i - n * precisionReuse⟩,
        logger := ctx.logger ++
          [LogEntry.transferredYield [⟨"uvna", n⟩] ⟨c.i - n * precisionReuse⟩] } := by
  have hn := (truncateInt_eq c n hc hT).2.1
  have hge : c.GTE (LegacyNewDec 1) = true := by
    simpa [LegacyDec.GTE, LegacyNewDec] using hc
  have hG : (ctx.bankKeeper.GetAllBalances
      ModuleAccount.YieldIntermediatePoolAccount).IsAllGTE [⟨"uvna", n⟩] = true := by
    rw [isAllGTE_single _ _ _ hn]
    simpa [Ctx.balance] using hbal
  unfold CalculateAndSendAmountFromYieldIntermediatePool
  simp only [hP, hY, hD, hA, hge, if_true, hT, newCoin_uvna n hn, newCoins_uvna n hn,
    sub_truncated c n hc hT, hG, Bool.not_true, Bool.false_eq_true, if_false, hS,
    SetDustAmount, hW, Ctx.log]

theorem engine_skip (ctx : Ctx) (params : Params) (y d c : LegacyDec) (n : Int)
    (hP : ParamsGet ctx = .ok params) (hY : perBlockYield params = some y)
    (hD : GetDustAmount ctx = .ok d) (hA : d.Add y = some c)
    (hc : precisionReuse ≤ c.i) (hT : c.TruncateInt = some n)
    (hbal : ctx.balance ModuleAccount.YieldIntermediatePoolAccount "uvna" < n) :
    CalculateAndSendAmountFromYieldIntermediatePool ctx = Outcome.ok ctx := by
  have hn := (truncateInt_eq c n hc hT).2.1
  have hge : c.GTE (LegacyNewDec 1) = true := by
    simpa [LegacyDec.GTE, LegacyNewDec] using hc
  have hG : (ctx.bankKeeper.GetAllBalances
      ModuleAccount.YieldIntermediatePoolAccount).IsAllGTE [⟨"uvna", n⟩] = false := by
    rw [isAllGTE_single _ _ _ hn]
    simpa [Ctx.balance] using hbal
  unfold CalculateAndSendAmountFromYieldIntermediatePool
  simp only [hP, hY, hD, hA, hge, if_true, hT, newCoin_uvna n hn, newCoins_uvna n hn, hG,
    Bool.not_false]

theorem engine_accumulate (ctx : Ctx) (params : Params) (y d c : LegacyDec)
    (hP : ParamsGet ctx = .ok params) (hY : perBlockYield params = some y)
    (hD : GetDustAmount ctx = .ok d) (hA : d.Add y = some c)
    (hc : c.i < precisionReuse) (hW : ctx.dustSetFails = false) :
    CalculateAndSendAmountFromYieldIntermediatePool ctx =
      Outcome.ok { ctx with
        dust := some c, logger := ctx.logger ++ [LogEntry.accumulatedDust c] } := by
  have hge : c.GTE (LegacyNewDec 1) = false := by
    simpa [LegacyDec.GTE, LegacyNewDec] using hc
  unfold CalculateAndSendAmountFromYieldIntermediatePool
  simp only [hP, hY, hD, hA, hge, Bool.false_eq_true, if_false, SetDustAmount, hW, Ctx.log]

/-- A successful run that logged "Transferred yield to trust deposit module" is a
Transfer: the data of the Transfer case. -/
theorem engine_transfer_inv (ctx ctx' : Ctx) (coins : Coins) (remainingDust : LegacyDec)
    (h : CalculateAndSendAmountFromYieldIntermediatePool ctx = Outcome.ok ctx')
    (hlog : ctx'.logger = ctx.logger ++ [LogEntry.transferredYield coins remainingDust]) :
    ∃ params y d c n bank, ParamsGet ctx = .ok params ∧ perBlockYield params = some y ∧
      GetDustAmount ctx = .ok d ∧ d.Add y = some c ∧ precisionReuse ≤ c.i ∧
      c.TruncateInt = some n ∧ coins = [⟨"uvna", n⟩] ∧
      remainingDust = ⟨c.i - n * precisionReuse⟩ ∧
      ctx.bankKeeper.SendCoinsFromModuleToModule ModuleAccount.YieldIntermediatePoolAccount
        ModuleAccount.ModuleName [⟨"uvna", n⟩] = .ok bank ∧
      ctx'.bankKeeper = bank ∧ ctx'.dust = some ⟨c.i - n * precisionReuse⟩ := by
  obtain ⟨params, y, d, c, hP, hY, hD, hA, hcase⟩ := engine_ok_cases ctx ctx' h
  rcases hcase with ⟨_, _, hctx⟩ | ⟨_, n, _, _, hctx⟩ | ⟨hc, n, bank, hT, _, hS, _, hctx⟩
  · subst hctx
    simp at hlog
  · subst hctx
    simp at hlog
  · subst hctx
    simp only [List.append_cancel_left_eq, List.cons.injEq, LogEntry.transferredYield.injEq,
      and_true] at hlog
    exact ⟨params, y, d, c, n, bank, hP, hY, hD, hA, hc, hT, hlog.1.symm, hlog.2.symm, hS,
      rfl, rfl⟩

theorem add_eq (d y c : LegacyDec) (h : d.Add y = some c) : c.i = d.i + y.i := by
  unfold LegacyDec.Add at h
  split at h
  · injection h with h
    rw [← h]
  · exact absurd h (by simp)

/-! ## The claims on the engine -/

/-- C1: in `CalculateAndSendAmountFromYieldIntermediatePool`, when the candidate
`c = dust + perBlockYield` is at least 1 and the pool holds at least `n = floor(c)` uvna
(`n` the truncation of `c` toward zero), the call returns nil, exactly `n` uvna has moved
from the yield intermediate pool to the trust deposit module, no other balance has
changed, and the stored dust is `c - n`. The stores answer, the decimal operations stay
in range and no send restriction rejects the transfer. -/
theorem transfer_moves_truncated_candidate (ctx : Ctx) (params : Params)
    (y d c : LegacyDec) (n : Int)
    (hP : ParamsGet ctx = .ok params) (hY : perBlockYield params = some y)
    (hD : GetDustAmount ctx = .ok d) (hA : d.Add y = some c)
    (hc : precisionReuse ≤ c.i) (hT : c.TruncateInt = some n)
    (hbal : n ≤ ctx.balance ModuleAccount.YieldIntermediatePoolAccount "uvna")
    (hres : (ModuleAccount.YieldIntermediatePoolAccount, ModuleAccount.ModuleName) ∉
      ctx.bankKeeper.restricted)
    (hW : ctx.dustSetFails = false) :
    c.i = d.i + y.i ∧ n = Int.tdiv c.i precisionReuse ∧ n = c.i / precisionReuse ∧
    ∃ ctx', CalculateAndSendAmountFromYieldIntermediatePool ctx = Outcome.ok ctx' ∧
      ctx'.balance ModuleAccount.YieldIntermediatePoolAccount "uvna" =
        ctx.balance ModuleAccount.YieldIntermediatePoolAccount "uvna" - n ∧
      ctx'.balance ModuleAccount.ModuleName "uvna" =
        ctx.balance ModuleAccount.ModuleName "uvna" + n ∧
      (∀ denom, denom ≠ "uvna" →
        ctx'.balance ModuleAccount.YieldIntermediatePoolAccount denom =
          ctx.balance ModuleAccount.YieldIntermediatePoolAccount denom ∧
        ctx'.balance ModuleAccount.ModuleName denom =
          ctx.balance ModuleAccount.ModuleName denom) ∧
      (∀ denom, ctx'.balance ModuleAccount.ProtocolPool denom =
        ctx.balance ModuleAccount.ProtocolPool denom) ∧
      ctx'.dustValue = ⟨c.i - n * precisionReuse⟩ := by
  have htr := truncateInt_eq c n hc hT
  have hn := htr.2.1
  have hp : (0 : Int) < precisionReuse := by rw [precisionReuse_eq]; norm_num
  have hci : (0 : Int) ≤ c.i := le_trans (le_of_lt hp) hc
  obtain ⟨bank, hS⟩ := send_single_ok ctx.bankKeeper ModuleAccount.YieldIntermediatePoolAccount
    ModuleAccount.ModuleName n hn hres hbal
  have hsend := send_ok ctx.bankKeeper bank _ _ _ (by decide) hS
  have huvna : ∀ denom, Coins.AmountOf [(⟨"uvna", n⟩ : Coin)] denom =
      if "uvna" = denom then n else 0 := by
    intro denom
    rw [amountOf_cons, amountOf_nil]
  refine ⟨add_eq d y c hA, ?_, htr.1, _, engine_transfer ctx params y d c n bank hP hY hD hA
    hc hT hbal hS hW, ?_, ?_, ?_, ?_, rfl⟩
  · rw [Int.tdiv_eq_ediv hci (le_of_lt hp)]
    exact htr.1
  · simp only [Ctx.balance, BankKeeper.GetAllBalances]
    rw [hsend.1 "uvna", huvna]
    simp
  · simp only [Ctx.balance, BankKeeper.GetAllBalances]
    rw [hsend.2.1 "uvna", huvna]
    simp
  · intro denom hdenom
    have hne : ¬ "uvna" = denom := fun e => hdenom e.symm
    simp only [Ctx.balance, BankKeeper.GetAllBalances]
    rw [hsend.1 denom, hsend.2.1 denom, huvna]
    simp [hne]
  · intro denom
    simp only [Ctx.balance, BankKeeper.GetAllBalances]
    rw [hsend.2.2.1 ModuleAccount.ProtocolPool (by decide) (by decide)]

/-- Witness of C1: from `transferExample` (candidate 8.422021953507237559, 1000 uvna in
the pool) 8 uvna move to the trust deposit module and the dust becomes
0.422021953507237559. -/
theorem transfer_moves_truncated_candidate_witness :
    ∃ ctx', CalculateAndSendAmountFromYieldIntermediatePool transferExample = Outcome.ok ctx' ∧
      ctx'.balance ModuleAccount.YieldIntermediatePoolAccount "uvna" = 992 ∧
      ctx'.balance ModuleAccount.ModuleName "uvna" = 8 ∧
      ctx'.dustValue = ⟨422021953507237559⟩ := by
  obtain ⟨_, _, _, ctx', h, hp, ht, _, _, hd⟩ :=
    transfer_moves_truncated_candidate transferExample
      ⟨1000000000, ⟨50000000000000000⟩⟩ ⟨7922021953507237559⟩ ⟨500000000000000000⟩
      ⟨8422021953507237559⟩ 8 (by rfl) (by decide) (by rfl) (by decide) (by decide)
      (by decide) (by decide) (by decide) (by rfl)
  have e1 : transferExample.balance ModuleAccount.YieldIntermediatePoolAccount "uvna" = 1000 := by
    decide
  have e2 : transferExample.balance ModuleAccount.ModuleName "uvna" = 0 := by decide
  have e3 : (8422021953507237559 : Int) - 8 * precisionReuse = 422021953507237559 := by
    decide
  rw [e1] at hp
  rw [e2] at ht
  rw [e3] at hd
  exact ⟨ctx', h, by rw [hp]; norm_num, by rw [ht]; norm_num, hd⟩

/-- C2: in `CalculateAndSendAmountFromYieldIntermediatePool`, when the candidate
`c = dust + perBlockYield` is below 1, the call returns nil, the bank is untouched (no
transfer is attempted, every balance is unchanged), and the stored dust is exactly `c`.
The stores answer and the decimal operations stay in range. -/
theorem accumulate_below_threshold (ctx : Ctx) (params : Params) (y d c : LegacyDec)
    (hP : ParamsGet ctx = .ok params) (hY : perBlockYield params = some y)
    (hD : GetDustAmount ctx = .ok d) (hA : d.Add y = some c)
    (hc : c.i < precisionReuse) (hW : ctx.dustSetFails = false) :
    c.i = d.i + y.i ∧
    ∃ ctx', CalculateAndSendAmountFromYieldIntermediatePool ctx = Outcome.ok ctx' ∧
      ctx'.bankKeeper.balances = ctx.bankKeeper.balances ∧
      (∀ addr denom, ctx'.balance addr denom = ctx.balance addr denom) ∧
      ctx'.dust = some c ∧ ctx'.dustValue = c ∧
      ctx'.logger = ctx.logger ++ [LogEntry.accumulatedDust c] :=
  ⟨add_eq d y c hA, _, engine_accumulate ctx params y d c hP hY hD hA hc hW, rfl,
    fun _ _ => rfl, rfl, rfl, rfl⟩

/-- Witness of C2: trust deposit value 10^6 at rate 0.05 gives a per-block yield of
0.007922021953507238; with dust 0.5 the candidate 0.507922021953507238 is stored and the
pool keeps its 1000 uvna. -/
theorem accumulate_below_threshold_witness :
    ∃ ctx', CalculateAndSendAmountFromYieldIntermediatePool
        (exampleCtx 1000000 500000000000000000 [⟨"uvna", 1000⟩]) = Outcome.ok ctx' ∧
      ctx'.balance ModuleAccount.YieldIntermediatePoolAccount "uvna" = 1000 ∧
      ctx'.dustValue = ⟨507922021953507238⟩ := by
  obtain ⟨_, ctx', h, _, hb, _, hd, _⟩ :=
    accumulate_below_threshold (exampleCtx 1000000 500000000000000000 [⟨"uvna", 1000⟩])
      ⟨1000000, ⟨50000000000000000⟩⟩ ⟨7922021953507238⟩ ⟨500000000000000000⟩
      ⟨507922021953507238⟩ (by rfl) (by decide) (by rfl) (by decide) (by decide) (by rfl)
  refine ⟨ctx', h, ?_, hd⟩
  rw [hb]
  decide

/-- C3: conservation of dust. Whenever `CalculateAndSendAmountFromYieldIntermediatePool`
performs a Transfer (it returns nil having logged the transfer of `coins`), the coins are
`n` uvna, `n` uvna left the pool and reached the trust deposit module, and
`dust_before + perBlockYield = n + dust_after` exactly, as raw 18-decimal integers. -/
theorem transfer_conserves_dust (ctx ctx' : Ctx) (coins : Coins) (remainingDust : LegacyDec)
    (h : CalculateAndSendAmountFromYieldIntermediatePool ctx = Outcome.ok ctx')
    (hlog : ctx'.logger = ctx.logger ++ [LogEntry.transferredYield coins remainingDust]) :
    ∃ params y n, ParamsGet ctx = .ok params ∧ perBlockYield params = some y ∧
      GetDustAmount ctx = .ok ctx.dustValue ∧ coins = [⟨"uvna", n⟩] ∧
      ctx.balance ModuleAccount.YieldIntermediatePoolAccount "uvna" -
        ctx'.balance ModuleAccount.YieldIntermediatePoolAccount "uvna" = n ∧
      ctx'.balance ModuleAccount.ModuleName "uvna" -
        ctx.balance ModuleAccount.ModuleName "uvna" = n ∧
      ctx.dustValue.i + y.i = n * precisionReuse + ctx'.dustValue.i := by
  obtain ⟨params, y, d, c, n, bank, hP, hY, hD, hA, _, _, hcoins, _, hS, hbank, hdust⟩ :=
    engine_transfer_inv ctx ctx' coins remainingDust h hlog
  have hsend := send_ok ctx.bankKeeper bank _ _ _ (by decide) hS
  have hd : d = ctx.dustValue := by
    unfold GetDustAmount at hD
    split at hD
    · exact absurd hD (by simp)
    · injection hD with hD
      exact hD.symm
  subst hd
  have huvna : Coins.AmountOf [(⟨"uvna", n⟩ : Coin)] "uvna" = n := by
    rw [amountOf_cons]; simp
  refine ⟨params, y, n, hP, hY, hD, hcoins, ?_, ?_, ?_⟩
  · simp only [Ctx.balance, BankKeeper.GetAllBalances, hbank]
    rw [hsend.1 "uvna", huvna]
    omega
  · simp only [Ctx.balance, BankKeeper.GetAllBalances, hbank]
    rw [hsend.2.1 "uvna", huvna]
    omega
  · have hci := add_eq _ _ _ hA
    simp only [Ctx.dustValue, hdust, Option.getD_some]
    simp only [Ctx.dustValue] at hci
    omega

/-- Witness of C3: the Transfer of 8 uvna from dust 0.5 and per-block yield
7.922021953507237559 leaves dust 0.422021953507237559. -/
theorem transfer_conserves_dust_witness :
    CalculateAndSendAmountFromYieldIntermediatePool transferExample =
      Outcome.ok transferExampleResult ∧
    ∃ params y n, ParamsGet transferExample = .ok params ∧ perBlockYield params = some y ∧
      [(⟨"uvna", 8⟩ : Coin)] = [⟨"uvna", n⟩] ∧
      transferExample.dustValue.i + y.i = n * precisionReuse + transferExampleResult.dustValue.i := by
  obtain ⟨params, y, n, hP, hY, _, hcoins, _, _, hsum⟩ :=
    transfer_conserves_dust transferExample transferExampleResult
      [⟨"uvna", 8⟩] ⟨422021953507237559⟩ (by rfl) (by rfl)
  exact ⟨by rfl, params, y, n, hP, hY, hcoins, hsum⟩

/-- C5: after any Transfer performed by `CalculateAndSendAmountFromYieldIntermediatePool`
the stored dust lies in `[0, 1)`: its raw value is at least 0 and below `10^18`. -/
theorem transfer_leaves_dust_in_unit_interval (ctx ctx' : Ctx) (coins : Coins)
    (remainingDust : LegacyDec)
    (h : CalculateAndSendAmountFromYieldIntermediatePool ctx = Outcome.ok ctx')
    (hlog : ctx'.logger = ctx.logger ++ [LogEntry.transferredYield coins remainingDust]) :
    ctx'.dustValue = remainingDust ∧ 0 ≤ ctx'.dustValue.i ∧
      ctx'.dustValue.i < precisionReuse := by
  obtain ⟨_, _, _, c, n, _, _, _, _, _, hc, hT, _, hrem, _, _, hdust⟩ :=
    engine_transfer_inv ctx ctx' coins remainingDust h hlog
  have htr := truncateInt_eq c n hc hT
  simp only [Ctx.dustValue, hdust, Option.getD_some, hrem]
  exact ⟨trivial, htr.2.2.1, htr.2.2.2⟩

/-- Witness of C5: the Transfer of 8 uvna leaves dust 0.422021953507237559. -/
theorem transfer_leaves_dust_in_unit_interval_witness :
    CalculateAndSendAmountFromYieldIntermediatePool transferExample =
      Outcome.ok transferExampleResult ∧
    transferExampleResult.dustValue = ⟨422021953507237559⟩ ∧
    0 ≤ transferExampleResult.dustValue.i ∧
    transferExampleResult.dustValue.i < precisionReuse :=
  ⟨by rfl,
    transfer_leaves_dust_in_unit_interval transferExample transferExampleResult
      [⟨"uvna", 8⟩] ⟨422021953507237559⟩ (by rfl) (by rfl)⟩

/-- C4 (the code at the failing input): with `TrustDepositValue = 2^63`, a `uint64`
that `int64(...)` wraps to `-2^63`, yield rate 0.05, dust 0 and an empty pool, the engine
returns nil and stores the negative dust `-73067755761.328299743960250463`. -/
theorem int64_wrap_stores_negative_dust :
    int64 9223372036854775808 = -9223372036854775808 ∧
    perBlockYield ⟨9223372036854775808, ⟨50000000000000000⟩⟩ =
      some ⟨-73067755761328299743960250463⟩ ∧
    CalculateAndSendAmountFromYieldIntermediatePool (exampleCtx 9223372036854775808 0 []) =
      Outcome.ok { exampleCtx 9223372036854775808 0 [] with
        dust := some ⟨-73067755761328299743960250463⟩
        logger := [LogEntry.accumulatedDust ⟨-73067755761328299743960250463⟩] } ∧
    (⟨-73067755761328299743960250463⟩ : LegacyDec).i < 0 :=
  ⟨by decide, by decide, by rfl, by decide⟩

theorem chopPrecisionAndRound_nonneg (d : Int) (h : 0 ≤ d) : 0 ≤ chopPrecisionAndRound d := by
  have hp : (0 : Int) ≤ precisionReuse := by rw [precisionReuse_eq]; norm_num
  have hq : 0 ≤ Int.tdiv d precisionReuse := Int.tdiv_nonneg h hp
  have hd : ¬ d < 0 := by omega
  unfold chopPrecisionAndRound chopPrecisionAndRoundNonneg
  simp only [hd, if_false]
  split_ifs <;> omega

theorem perBlockYield_nonneg (params : Params) (y : LegacyDec)
    (hv : params.TrustDepositValue < 2 ^ 63) (hr : 0 ≤ params.TrustDepositYieldRate.i)
    (hY : perBlockYield params = some y) : 0 ≤ y.i := by
  have hp : (0 : Int) ≤ precisionReuse := by rw [precisionReuse_eq]; norm_num
  have h64 : 0 ≤ int64 params.TrustDepositValue := by
    unfold int64
    have : params.TrustDepositValue % 2 ^ 64 = params.TrustDepositValue :=
      Nat.mod_eq_of_lt (by omega)
    rw [this]
    simp only [hv, if_true]
    exact Int.ofNat_nonneg _
  unfold perBlockYield at hY
  simp only [NewInt, LegacyNewDecFromInt, LegacyDec.Mul] at hY
  split at hY
  · exact absurd hY (by simp)
  · rename_i annualYield hM
    split at hM
    · injection hM with hM
      have ha : 0 ≤ annualYield.i := by
        rw [← hM]
        exact chopPrecisionAndRound_nonneg _ (mul_nonneg (mul_nonneg h64 hp) hr)
      unfold LegacyDec.Quo at hY
      split at hY
      · exact absurd hY (by simp)
      · simp only at hY
        split at hY
        · injection hY with hY
          rw [← hY]
          refine chopPrecisionAndRound_nonneg _ (Int.tdiv_nonneg ?_ ?_)
          · exact mul_nonneg (mul_nonneg ha hp) hp
          · exact mul_nonneg (by norm_num) hp
        · exact absurd hY (by simp)
    · exact absurd hM (by simp)

/-- The range on which the dust stays non-negative: when `TrustDepositValue` is below
`2^63` (so that `int64(...)` does not wrap) and the yield rate and the stored dust are
non-negative, every successful run of the engine leaves a non-negative dust. -/
theorem dust_nonneg_without_wrap (ctx ctx' : Ctx) (params : Params)
    (hP : ParamsGet ctx = .ok params)
    (hv : params.TrustDepositValue < 2 ^ 63) (hr : 0 ≤ params.TrustDepositYieldRate.i)
    (hd : 0 ≤ ctx.dustValue.i)
    (h : CalculateAndSendAmountFromYieldIntermediatePool ctx = Outcome.ok ctx') :
    0 ≤ ctx'.dustValue.i := by
  obtain ⟨params', y, d, c, hP', hY, hD, hA, hcase⟩ := engine_ok_cases ctx ctx' h
  rw [hP] at hP'
  injection hP' with hP'
  subst hP'
  have hy := perBlockYield_nonneg params y hv hr hY
  have hdd : d = ctx.dustValue := by
    unfold GetDustAmount at hD
    split at hD
    · exact absurd hD (by simp)
    · injection hD with hD
      exact hD.symm
  have hc := add_eq d y c hA
  rw [hdd] at hc
  rcases hcase with ⟨_, _, hctx⟩ | ⟨_, n, _, _, hctx⟩ | ⟨hge, n, bank, hT, _, _, _, hctx⟩
  · subst hctx
    simp only [Ctx.dustValue, Option.getD_some]
    simp only [Ctx.dustValue] at hd hc
    omega
  · subst hctx
    exact hd
  · subst hctx
    exact (truncateInt_eq c n hge hT).2.2.1

/-- C6: Skip. When the candidate `c = dust + perBlockYield` is at least 1 and the pool
holds less uvna than `n = floor(c)`, `CalculateAndSendAmountFromYieldIntermediatePool`
returns nil with the state exactly as it was (no transfer, no dust write, no log line);
so a second run right after the first returns nil with the same unchanged state again.
The stores answer and the decimal operations stay in range. -/
theorem skip_leaves_state_unchanged (ctx : Ctx) (params : Params) (y d c : LegacyDec)
    (n : Int)
    (hP : ParamsGet ctx = .ok params) (hY : perBlockYield params = some y)
    (hD : GetDustAmount ctx = .ok d) (hA : d.Add y = some c)
    (hc : precisionReuse ≤ c.i) (hT : c.TruncateInt = some n)
    (hbal : ctx.balance ModuleAccount.YieldIntermediatePoolAccount "uvna" < n) :
    n = c.i / precisionReuse ∧
    CalculateAndSendAmountFromYieldIntermediatePool ctx = Outcome.ok ctx ∧
    (CalculateAndSendAmountFromYieldIntermediatePool ctx).andThen
      CalculateAndSendAmountFromYieldIntermediatePool = Outcome.ok ctx := by
  have h := engine_skip ctx params y d c n hP hY hD hA hc hT hbal
  refine ⟨(truncateInt_eq c n hc hT).1, h, ?_⟩
  rw [h]
  exact h

/-- Witness of C6: candidate 8.422021953507237559 with only 5 uvna in the pool. -/
theorem skip_leaves_state_unchanged_witness :
    CalculateAndSendAmountFromYieldIntermediatePool
        (exampleCtx 1000000000 500000000000000000 [⟨"uvna", 5⟩]) =
      Outcome.ok (exampleCtx 1000000000 500000000000000000 [⟨"uvna", 5⟩]) ∧
    (CalculateAndSendAmountFromYieldIntermediatePool
        (exampleCtx 1000000000 500000000000000000 [⟨"uvna", 5⟩])).andThen
      CalculateAndSendAmountFromYieldIntermediatePool =
      Outcome.ok (exampleCtx 1000000000 500000000000000000 [⟨"uvna", 5⟩]) :=
  (skip_leaves_state_unchanged (exampleCtx 1000000000 500000000000000000 [⟨"uvna", 5⟩])
    ⟨1000000000, ⟨50000000000000000⟩⟩ ⟨7922021953507237559⟩ ⟨500000000000000000⟩
    ⟨8422021953507237559⟩ 8 (by rfl) (by decide) (by rfl) (by decide) (by decide)
    (by decide) (by decide)).2

/-! ## The sweep and the whole step -/

theorem amountOf_of_isZero (cs : Coins) (h : cs.IsZero = true) (d : String) :
    Coins.AmountOf cs d = 0 := by
  induction cs with
  | nil => rfl
  | cons c cs ih =>
    unfold Coins.IsZero at h ih
    rw [List.all_cons, Bool.and_eq_true, decide_eq_true_eq] at h
    rw [amountOf_cons, ih h.2]
    simp [h.1]

/-- Every successful run of the sweep either found a zero balance and did nothing, or
sent the whole balance of the pool to the community pool. -/
theorem sweep_ok_cases (ctx ctx' : Ctx)
    (h : SendFundsBackToCommunityPool ctx = Outcome.ok ctx') :
    ((ctx.bankKeeper.GetAllBalances ModuleAccount.YieldIntermediatePoolAccount).IsZero = true ∧
        ctx' = ctx)
      ∨ ((ctx.bankKeeper.GetAllBalances ModuleAccount.YieldIntermediatePoolAccount).IsZero =
          false ∧
        ∃ bank, ctx.bankKeeper.SendCoinsFromModuleToModule
            ModuleAccount.YieldIntermediatePoolAccount ModuleAccount.ProtocolPool
            (ctx.bankKeeper.GetAllBalances ModuleAccount.YieldIntermediatePoolAccount) =
              .ok bank ∧
          ctx' = { ctx with
            bankKeeper := bank
            logger := ctx.logger ++ [LogEntry.sentBack
              (ctx.bankKeeper.GetAllBalances ModuleAccount.YieldIntermediatePoolAccount)] }) := by
  unfold SendFundsBackToCommunityPool at h
  by_cases hz : (ctx.bankKeeper.GetAllBalances
      ModuleAccount.YieldIntermediatePoolAccount).IsZero = true
  · left
    simp only [hz, if_true, Outcome.ok.injEq] at h
    exact ⟨hz, h.symm⟩
  · right
    have hz' : (ctx.bankKeeper.GetAllBalances
      ModuleAccount.YieldIntermediatePoolAccount).IsZero = false := by simpa using hz
    simp only [hz', Bool.false_eq_true, if_false] at h
    cases hS : ctx.bankKeeper.SendCoinsFromModuleToModule
        ModuleAccount.YieldIntermediatePoolAccount ModuleAccount.ProtocolPool
        (ctx.bankKeeper.GetAllBalances ModuleAccount.YieldIntermediatePoolAccount) with
    | error e => simp [hS] at h
    | ok bank =>
      simp only [hS, Ctx.log, Outcome.ok.injEq] at h
      exact ⟨hz', bank, rfl, h.symm⟩

/-- The balances after a successful sweep, denomination by denomination. -/
theorem sweep_balances (ctx ctx' : Ctx)
    (h : SendFundsBackToCommunityPool ctx = Outcome.ok ctx') (denom : String) :
    ctx'.balance ModuleAccount.YieldIntermediatePoolAccount denom = 0 ∧
    ctx'.balance ModuleAccount.ProtocolPool denom =
      ctx.balance ModuleAccount.ProtocolPool denom +
        ctx.balance ModuleAccount.YieldIntermediatePoolAccount denom ∧
    ctx'.balance ModuleAccount.ModuleName denom = ctx.balance ModuleAccount.ModuleName denom := by
  rcases sweep_ok_cases ctx ctx' h with ⟨hz, hctx⟩ | ⟨_, bank, hS, hctx⟩
  · subst hctx
    have h0 := amountOf_of_isZero _ hz denom
    simp only [Ctx.balance]
    rw [h0]
    simp
  · subst hctx
    have hsend := send_ok ctx.bankKeeper bank _ _ _ (by decide) hS
    simp only [Ctx.balance, BankKeeper.GetAllBalances] at hsend ⊢
    rw [hsend.1 denom, hsend.2.1 denom,
      hsend.2.2.1 ModuleAccount.ModuleName (by decide) (by decide)]
    simp

theorem amountOf_of_mem (bal : Coins)
    (hnd : List.Pairwise (fun a b : Coin => a.Denom ≠ b.Denom) bal) :
    ∀ c ∈ bal, Coins.AmountOf bal c.Denom = c.Amount := by
  induction bal with
  | nil => intro c hc; exact absurd hc (List.not_mem_nil c)
  | cons b bal ih =>
    intro c hc
    rw [List.pairwise_cons] at hnd
    rw [amountOf_cons]
    rcases List.mem_cons.mp hc with rfl | hmem
    · simp
    · have : ¬ b.Denom = c.Denom := hnd.1 c hmem
      simp only [this, if_false]
      exact ih hnd.2 c hmem

theorem subUnlockedCoins_covered (amt : Coins)
    (hnd : List.Pairwise (fun a b : Coin => a.Denom ≠ b.Denom) amt) :
    ∀ bal : Coins, (∀ c ∈ amt, c.Amount ≤ Coins.AmountOf bal c.Denom) →
      ∃ bal', subUnlockedCoins bal amt = some bal' := by
  induction amt with
  | nil => intro bal _; exact ⟨bal, rfl⟩
  | cons coin amt ih =>
    intro bal hcov
    rw [List.pairwise_cons] at hnd
    have h0 : ¬ Coins.AmountOf bal coin.Denom < coin.Amount := by
      have := hcov coin (List.mem_cons_self _ _)
      omega
    simp only [subUnlockedCoins, h0, if_false]
    apply ih hnd.2
    intro c hc
    rw [amountOf_setBalance]
    have : ¬ c.Denom = coin.Denom := fun e => hnd.1 c hc e.symm
    simp only [this, if_false]
    exact hcov c (List.mem_cons_of_mem _ hc)

/-- The sweep returns nil whenever the pool's balance is a valid coin set (or zero) and
no send restriction rejects the transfer to the community pool. -/
theorem sweep_succeeds (ctx : Ctx)
    (hv : (ctx.bankKeeper.GetAllBalances ModuleAccount.YieldIntermediatePoolAccount).IsValid =
      true)
    (hres : (ModuleAccount.YieldIntermediatePoolAccount, ModuleAccount.ProtocolPool) ∉
      ctx.bankKeeper.restricted) :
    ∃ ctx', SendFundsBackToCommunityPool ctx = Outcome.ok ctx' := by
  unfold SendFundsBackToCommunityPool
  by_cases hz : (ctx.bankKeeper.GetAllBalances
      ModuleAccount.YieldIntermediatePoolAccount).IsZero = true
  · exact ⟨ctx, by simp only [hz, if_true]⟩
  · have hnd := isValid_pairwise_ne _ hv
    obtain ⟨bal', hsub⟩ := subUnlockedCoins_covered _ hnd
      (ctx.bankKeeper.GetAllBalances ModuleAccount.YieldIntermediatePoolAccount)
      (fun c hc => le_of_eq (amountOf_of_mem _ hnd c hc).symm)
    simp only [BankKeeper.GetAllBalances] at hv hsub hz ⊢
    simp only [hz, if_false, BankKeeper.SendCoinsFromModuleToModule, hres, hv, Bool.not_true,
      Bool.false_eq_true, hsub, Ctx.log]
    exact ⟨_, rfl⟩

/-- C7: sweep postcondition. After a successful `SendFundsBackToCommunityPool`, in every
denomination the balance of the yield intermediate pool is zero, the community pool
holds what it held plus the whole balance the pool held on entry, and the trust deposit
module, the dust and the params are as before. -/
theorem sweep_moves_whole_pool_balance (ctx ctx' : Ctx)
    (h : SendFundsBackToCommunityPool ctx = Outcome.ok ctx') :
    (∀ denom,
      ctx'.balance ModuleAccount.YieldIntermediatePoolAccount denom = 0 ∧
      ctx'.balance ModuleAccount.ProtocolPool denom =
        ctx.balance ModuleAccount.ProtocolPool denom +
          ctx.balance ModuleAccount.YieldIntermediatePoolAccount denom ∧
      ctx'.balance ModuleAccount.ModuleName denom =
        ctx.balance ModuleAccount.ModuleName denom) ∧
    ctx'.dust = ctx.dust ∧ ctx'.params = ctx.params := by
  refine ⟨fun denom => sweep_balances ctx ctx' h denom, ?_, ?_⟩ <;>
  · rcases sweep_ok_cases ctx ctx' h with ⟨_, hctx⟩ | ⟨_, _, _, hctx⟩ <;> subst hctx <;> rfl

/-- Witness of C7: a pool holding 3 uatom and 1000 uvna is swept to the community pool
in both denominations. -/
theorem sweep_moves_whole_pool_balance_witness :
    SendFundsBackToCommunityPool sweepExample = Outcome.ok sweepExampleResult ∧
    sweepExample.balance ModuleAccount.YieldIntermediatePoolAccount "uatom" = 3 ∧
    sweepExampleResult.balance ModuleAccount.ProtocolPool "uatom" = 3 ∧
    sweepExampleResult.balance ModuleAccount.ProtocolPool "uvna" = 1000 ∧
    ∀ denom,
      sweepExampleResult.balance ModuleAccount.YieldIntermediatePoolAccount denom = 0 ∧
      sweepExampleResult.balance ModuleAccount.ProtocolPool denom =
        sweepExample.balance ModuleAccount.ProtocolPool denom +
          sweepExample.balance ModuleAccount.YieldIntermediatePoolAccount denom :=
  ⟨by rfl, by decide, by decide, by decide, fun denom =>
    ⟨((sweep_moves_whole_pool_balance sweepExample sweepExampleResult (by rfl)).1 denom).1,
      ((sweep_moves_whole_pool_balance sweepExample sweepExampleResult (by rfl)).1 denom).2.1⟩⟩

/-- A successful `BeginBlocker` is a successful engine followed by a successful sweep. -/
theorem beginBlocker_ok_cases (ctx ctx' : Ctx) (h : BeginBlocker ctx = Outcome.ok ctx') :
    ∃ ctx1, CalculateAndSendAmountFromYieldIntermediatePool ctx = Outcome.ok ctx1 ∧
      SendFundsBackToCommunityPool ctx1 = Outcome.ok ctx' := by
  unfold BeginBlocker at h
  cases hE : CalculateAndSendAmountFromYieldIntermediatePool ctx with
  | failed e c => simp [hE] at h
  | panicked => simp [hE] at h
  | ok ctx1 =>
    simp only [hE] at h
    cases hS : SendFundsBackToCommunityPool ctx1 with
    | failed e c => simp [hS] at h
    | panicked => simp [hS] at h
    | ok ctx2 =>
      simp only [hS, Outcome.ok.injEq] at h
      exact ⟨ctx1, rfl, by rw [← h]; exact hS⟩

/-- What a successful engine run does to the balances: it moves `t` uvna from the pool to
the trust deposit module, where `t` is zero on Accumulate and on Skip (the bank is then
untouched) and is the logged transfer amount, at least 1, on Transfer. -/
theorem engine_balances (ctx ctx1 : Ctx)
    (h : CalculateAndSendAmountFromYieldIntermediatePool ctx = Outcome.ok ctx1) :
    ∃ t : Int,
      ((t = 0 ∧ ctx1.bankKeeper = ctx.bankKeeper ∧
          (ctx1.logger = ctx.logger ∨ ∃ c, ctx1.logger = ctx.logger ++ [LogEntry.accumulatedDust c]))
        ∨ (1 ≤ t ∧ ∃ rem, ctx1.logger =
            ctx.logger ++ [LogEntry.transferredYield [⟨"uvna", t⟩] rem])) ∧
      ∀ denom,
        ctx1.balance ModuleAccount.YieldIntermediatePoolAccount denom =
          ctx.balance ModuleAccount.YieldIntermediatePoolAccount denom -
            (if denom = "uvna" then t else 0) ∧
        ctx1.balance ModuleAccount.ModuleName denom =
          ctx.balance ModuleAccount.ModuleName denom + (if denom = "uvna" then t else 0) ∧
        ctx1.balance ModuleAccount.ProtocolPool denom =
          ctx.balance ModuleAccount.ProtocolPool denom := by
  obtain ⟨params, y, d, c, hP, hY, hD, hA, hcase⟩ := engine_ok_cases ctx ctx1 h
  rcases hcase with ⟨_, _, hctx⟩ | ⟨_, n, _, _, hctx⟩ | ⟨hc, n, bank, hT, _, hS, _, hctx⟩
  · subst hctx
    exact ⟨0, Or.inl ⟨rfl, rfl, Or.inr ⟨c, rfl⟩⟩, fun denom => by simp [Ctx.balance]⟩
  · subst hctx
    exact ⟨0, Or.inl ⟨rfl, rfl, Or.inl rfl⟩, fun denom => by simp [Ctx.balance]⟩
  · subst hctx
    have hn := (truncateInt_eq c n hc hT).2.1
    have hsend := send_ok ctx.bankKeeper bank _ _ _ (by decide) hS
    refine ⟨n, Or.inr ⟨hn, _, rfl⟩, fun denom => ?_⟩
    have huvna : Coins.AmountOf [(⟨"uvna", n⟩ : Coin)] denom =
        if denom = "uvna" then n else 0 := by
      rw [amountOf_cons, amountOf_nil]
      by_cases hd : denom = "uvna"
      · simp [hd]
      · have : ¬ "uvna" = denom := fun e => hd e.symm
        simp [hd, this]
    simp only [Ctx.balance, BankKeeper.GetAllBalances]
    rw [hsend.1 denom, hsend.2.1 denom,
      hsend.2.2.1 ModuleAccount.ProtocolPool (by decide) (by decide), huvna]
    exact ⟨rfl, rfl, rfl⟩

/-- C8: whole-step value conservation. For every successful `BeginBlocker` step there is
an engine transfer amount `t` (zero when the engine accumulated or skipped and left the
bank untouched, the logged amount when it transferred) such that, in every denomination:
the three balances of pool, trust deposit module and community pool sum to the same
before and after; the trust deposit module gained exactly `t` uvna; and what left the
pool is `t` uvna plus what the community pool gained (the swept amount), the pool ending
at zero. -/
theorem beginBlocker_conserves_value (ctx ctx' : Ctx) (h : BeginBlocker ctx = Outcome.ok ctx') :
    ∃ (ctx1 : Ctx) (t : Int),
      CalculateAndSendAmountFromYieldIntermediatePool ctx = Outcome.ok ctx1 ∧
      SendFundsBackToCommunityPool ctx1 = Outcome.ok ctx' ∧
      ((t = 0 ∧ ctx1.bankKeeper = ctx.bankKeeper ∧
          (ctx1.logger = ctx.logger ∨ ∃ c, ctx1.logger = ctx.logger ++ [LogEntry.accumulatedDust c]))
        ∨ (1 ≤ t ∧ ∃ rem, ctx1.logger =
            ctx.logger ++ [LogEntry.transferredYield [⟨"uvna", t⟩] rem])) ∧
      ∀ denom,
        ctx'.balance ModuleAccount.YieldIntermediatePoolAccount denom +
            ctx'.balance ModuleAccount.ModuleName denom +
            ctx'.balance ModuleAccount.ProtocolPool denom =
          ctx.balance ModuleAccount.YieldIntermediatePoolAccount denom +
            ctx.balance ModuleAccount.ModuleName denom +
            ctx.balance ModuleAccount.ProtocolPool denom ∧
        ctx'.balance ModuleAccount.ModuleName denom - ctx.balance ModuleAccount.ModuleName denom =
          (if denom = "uvna" then t else 0) ∧
        ctx.balance ModuleAccount.YieldIntermediatePoolAccount denom -
            ctx'.balance ModuleAccount.YieldIntermediatePoolAccount denom =
          (if denom = "uvna" then t else 0) +
            (ctx'.balance ModuleAccount.ProtocolPool denom -
              ctx.balance ModuleAccount.ProtocolPool denom) ∧
        ctx'.balance ModuleAccount.ProtocolPool denom -
            ctx.balance ModuleAccount.ProtocolPool denom =
          ctx1.balance ModuleAccount.YieldIntermediatePoolAccount denom ∧
        ctx'.balance ModuleAccount.YieldIntermediatePoolAccount denom = 0 := by
  obtain ⟨ctx1, hE, hS⟩ := beginBlocker_ok_cases ctx ctx' h
  obtain ⟨t, ht, hbal⟩ := engine_balances ctx ctx1 hE
  refine ⟨ctx1, t, hE, hS, ht, fun denom => ?_⟩
  obtain ⟨h1, h2, h3⟩ := hbal denom
  obtain ⟨h4, h5, h6⟩ := sweep_balances ctx1 ctx' hS denom
  refine ⟨?_, ?_, ?_, ?_, h4⟩ <;> omega

/-- Witness of C8: from 3 uatom and 1000 uvna in the pool, the step moves 8 uvna to the
trust deposit module and sweeps 3 uatom and 992 uvna to the community pool. -/
theorem beginBlocker_conserves_value_witness :
    BeginBlocker stepExample = Outcome.ok stepExampleResult ∧
    stepExampleResult.balance ModuleAccount.ModuleName "uvna" = 8 ∧
    stepExampleResult.balance ModuleAccount.ProtocolPool "uvna" = 992 ∧
    stepExampleResult.balance ModuleAccount.ProtocolPool "uatom" = 3 ∧
    ∀ denom,
      stepExampleResult.balance ModuleAccount.YieldIntermediatePoolAccount denom +
          stepExampleResult.balance ModuleAccount.ModuleName denom +
          stepExampleResult.balance ModuleAccount.ProtocolPool denom =
        stepExample.balance ModuleAccount.YieldIntermediatePoolAccount denom +
          stepExample.balance ModuleAccount.ModuleName denom +
          stepExample.balance ModuleAccount.ProtocolPool denom := by
  obtain ⟨_, _, _, _, _, hall⟩ :=
    beginBlocker_conserves_value stepExample stepExampleResult (by rfl)
  exact ⟨by rfl, by decide, by decide, by decide, fun denom => (hall denom).1⟩

/-! ## Errors -/

/-- C9: atomicity on transfer failure. When the engine reaches the Transfer branch (the
candidate `c` is at least 1 and the pool covers `n = floor(c)` uvna) and
`SendCoinsFromModuleToModule` fails with `err`, the engine returns `err` with the state
exactly as it was (the stored dust is at its pre-step value), and `BeginBlocker` returns
`err` with that same state: the sweep has not run, the pool still holds its balance. -/
theorem transfer_failure_is_atomic (ctx : Ctx) (params : Params) (y d c : LegacyDec)
    (n : Int) (err : Err)
    (hP : ParamsGet ctx = .ok params) (hY : perBlockYield params = some y)
    (hD : GetDustAmount ctx = .ok d) (hA : d.Add y = some c)
    (hc : precisionReuse ≤ c.i) (hT : c.TruncateInt = some n)
    (hbal : n ≤ ctx.balance ModuleAccount.YieldIntermediatePoolAccount "uvna")
    (hS : ctx.bankKeeper.SendCoinsFromModuleToModule ModuleAccount.YieldIntermediatePoolAccount
      ModuleAccount.ModuleName [⟨"uvna", n⟩] = .error err) :
    CalculateAndSendAmountFromYieldIntermediatePool ctx = Outcome.failed err ctx ∧
    BeginBlocker ctx = Outcome.failed err ctx := by
  have hn := (truncateInt_eq c n hc hT).2.1
  have hge : c.GTE (LegacyNewDec 1) = true := by
    simpa [LegacyDec.GTE, LegacyNewDec] using hc
  have hG : (ctx.bankKeeper.GetAllBalances
      ModuleAccount.YieldIntermediatePoolAccount).IsAllGTE [⟨"uvna", n⟩] = true := by
    rw [isAllGTE_single _ _ _ hn]
    simpa [Ctx.balance] using hbal
  have hE : CalculateAndSendAmountFromYieldIntermediatePool ctx = Outcome.failed err ctx := by
    unfold CalculateAndSendAmountFromYieldIntermediatePool
    simp only [hP, hY, hD, hA, hge, if_true, hT, newCoin_uvna n hn, newCoins_uvna n hn, hG,
      Bool.not_true, Bool.false_eq_true, if_false, hS]
  refine ⟨hE, ?_⟩
  unfold BeginBlocker
  rw [hE]

/-- Witness of C9: with sends from the pool to the trust deposit module rejected, the
step fails with `sendRestricted`; the dust stays 0.5 and the pool keeps its 3 uatom and
1000 uvna. -/
theorem transfer_failure_is_atomic_witness :
    BeginBlocker restrictedExample = Outcome.failed Err.sendRestricted restrictedExample ∧
    restrictedExample.dustValue = ⟨500000000000000000⟩ ∧
    restrictedExample.balance ModuleAccount.YieldIntermediatePoolAccount "uatom" = 3 ∧
    (restrictedExample.bankKeeper.GetAllBalances
      ModuleAccount.YieldIntermediatePoolAccount).IsZero = false :=
  ⟨(transfer_failure_is_atomic restrictedExample ⟨1000000000, ⟨50000000000000000⟩⟩
      ⟨7922021953507237559⟩ ⟨500000000000000000⟩ ⟨8422021953507237559⟩ 8 Err.sendRestricted
      (by rfl) (by decide) (by rfl) (by decide) (by decide) (by decide) (by decide)
      (by rfl)).2,
    by decide, by decide, by decide⟩

/-- C10: configuration read failure. When reading the params fails, or the params are
read, the per-block yield is computed and reading the dust fails, the engine returns that
error with the state exactly as it was (no transfer, no dust write, no default value),
and `BeginBlocker` returns the error with that same state: the sweep has not run. -/
theorem read_failure_aborts_step (ctx : Ctx) (err : Err)
    (h : ParamsGet ctx = .error err ∨
      ∃ params y, ParamsGet ctx = .ok params ∧ perBlockYield params = some y ∧
        GetDustAmount ctx = .error err) :
    CalculateAndSendAmountFromYieldIntermediatePool ctx = Outcome.failed err ctx ∧
    BeginBlocker ctx = Outcome.failed err ctx := by
  have hE : CalculateAndSendAmountFromYieldIntermediatePool ctx = Outcome.failed err ctx := by
    unfold CalculateAndSendAmountFromYieldIntermediatePool
    rcases h with hP | ⟨params, y, hP, hY, hD⟩
    · simp only [hP]
    · simp only [hP, hY, hD]
  refine ⟨hE, ?_⟩
  unfold BeginBlocker
  rw [hE]

/-- Witness of C10: a state without readable params and a state without readable dust;
both steps fail with the read error and leave the pool unswept. -/
theorem read_failure_aborts_step_witness :
    (BeginBlocker noParamsExample = Outcome.failed Err.paramsGet noParamsExample ∧
      (noParamsExample.bankKeeper.GetAllBalances
        ModuleAccount.YieldIntermediatePoolAccount).IsZero = false) ∧
    (BeginBlocker noDustExample = Outcome.failed Err.dustGet noDustExample ∧
      (noDustExample.bankKeeper.GetAllBalances
        ModuleAccount.YieldIntermediatePoolAccount).IsZero = false) :=
  ⟨⟨(read_failure_aborts_step noParamsExample Err.paramsGet (Or.inl (by rfl))).2, by decide⟩,
    ⟨(read_failure_aborts_step noDustExample Err.dustGet
      (Or.inr ⟨⟨1000000000, ⟨50000000000000000⟩⟩, ⟨7922021953507237559⟩, by rfl, by decide,
        by rfl⟩)).2, by decide⟩⟩

/-! ## The end-to-end scenarios -/

/-- The Transfer case with its postcondition: the log line, the two uvna balances and
the dust. -/
theorem engine_transfer_post (ctx : Ctx) (params : Params) (y d c : LegacyDec) (n : Int)
    (hP : ParamsGet ctx = .ok params) (hY : perBlockYield params = some y)
    (hD : GetDustAmount ctx = .ok d) (hA : d.Add y = some c)
    (hc : precisionReuse ≤ c.i) (hT : c.TruncateInt = some n)
    (hbal : n ≤ ctx.balance ModuleAccount.YieldIntermediatePoolAccount "uvna")
    (hres : (ModuleAccount.YieldIntermediatePoolAccount, ModuleAccount.ModuleName) ∉
      ctx.bankKeeper.restricted)
    (hW : ctx.dustSetFails = false) :
    ∃ ctx', CalculateAndSendAmountFromYieldIntermediatePool ctx = Outcome.ok ctx' ∧
      ctx'.logger = ctx.logger ++
        [LogEntry.transferredYield [⟨"uvna", n⟩] ⟨c.i - n * precisionReuse⟩] ∧
      ctx'.balance ModuleAccount.YieldIntermediatePoolAccount "uvna" =
        ctx.balance ModuleAccount.YieldIntermediatePoolAccount "uvna" - n ∧
      ctx'.balance ModuleAccount.ModuleName "uvna" =
        ctx.balance ModuleAccount.ModuleName "uvna" + n ∧
      ctx'.dustValue = ⟨c.i - n * precisionReuse⟩ := by
  have hn := (truncateInt_eq c n hc hT).2.1
  obtain ⟨bank, hS⟩ := send_single_ok ctx.bankKeeper ModuleAccount.YieldIntermediatePoolAccount
    ModuleAccount.ModuleName n hn hres hbal
  have hsend := send_ok ctx.bankKeeper bank _ _ _ (by decide) hS
  have huvna : Coins.AmountOf [(⟨"uvna", n⟩ : Coin)] "uvna" = n := by
    rw [amountOf_cons]; simp
  refine ⟨_, engine_transfer ctx params y d c n bank hP hY hD hA hc hT hbal hS hW, rfl,
    ?_, ?_, rfl⟩
  · simp only [Ctx.balance, BankKeeper.GetAllBalances]
    rw [hsend.1 "uvna", huvna]
  · simp only [Ctx.balance, BankKeeper.GetAllBalances]
    rw [hsend.2.1 "uvna", huvna]

/-- C11 (counterexample): in scenario A the claim as stated fails. There is no
per-step yield below 1 with which the engine accumulates, leaves the 1000 uvna in the
pool and lets the sweep send 1000 uvna to the community pool: the per-step yield is
7.922021953507237559. -/
theorem scenario_A_is_not_accumulate :
    ¬ ∃ (y : LegacyDec) (ctx1 ctx' : Ctx),
      perBlockYield ⟨1000000000, ⟨50000000000000000⟩⟩ = some y ∧ y.i < precisionReuse ∧
      CalculateAndSendAmountFromYieldIntermediatePool scenarioA = Outcome.ok ctx1 ∧
      ctx1.dustValue = y ∧
      ctx1.balance ModuleAccount.YieldIntermediatePoolAccount "uvna" = 1000 ∧
      SendFundsBackToCommunityPool ctx1 = Outcome.ok ctx' ∧
      ctx'.balance ModuleAccount.ProtocolPool "uvna" = 1000 := by
  rintro ⟨y, ctx1, ctx', hy, hlt, hE, _, hpool, _, _⟩
  have hE' : CalculateAndSendAmountFromYieldIntermediatePool scenarioA =
      Outcome.ok scenarioAEngineResult := by rfl
  rw [hE'] at hE
  injection hE with hE
  subst hE
  revert hpool
  decide

/-- C11 (amended): in scenario A the per-step yield is 7.922021953507237559, the engine
performs a Transfer of 7 uvna, stores the dust 0.922021953507237559 and leaves 993 uvna
in the pool, and the sweep then sends those 993 uvna to the community pool. -/
theorem scenario_A_transfers_seven :
    perBlockYield ⟨1000000000, ⟨50000000000000000⟩⟩ = some ⟨7922021953507237559⟩ ∧
    CalculateAndSendAmountFromYieldIntermediatePool scenarioA =
      Outcome.ok scenarioAEngineResult ∧
    scenarioAEngineResult.logger =
      [LogEntry.transferredYield [⟨"uvna", 7⟩] ⟨922021953507237559⟩] ∧
    scenarioAEngineResult.balance ModuleAccount.ModuleName "uvna" = 7 ∧
    scenarioAEngineResult.balance ModuleAccount.YieldIntermediatePoolAccount "uvna" = 993 ∧
    scenarioAEngineResult.dustValue = ⟨922021953507237559⟩ ∧
    SendFundsBackToCommunityPool scenarioAEngineResult = Outcome.ok scenarioAResult ∧
    BeginBlocker scenarioA = Outcome.ok scenarioAResult ∧
    scenarioAResult.balance ModuleAccount.ProtocolPool "uvna" = 993 ∧
    scenarioAResult.balance ModuleAccount.YieldIntermediatePoolAccount "uvna" = 0 ∧
    scenarioAResult.balance ModuleAccount.ModuleName "uvna" = 7 :=
  ⟨by decide, by rfl, by rfl, by decide, by decide, by decide, by rfl, by rfl, by decide,
    by decide, by decide⟩

/-- C12 (counterexample): in scenario B with 1000 uvna in the pool the engine does not
move exactly 1 uvna to the trust deposit module. -/
theorem scenario_B_is_not_one_uvna :
    ¬ ∃ ctx', CalculateAndSendAmountFromYieldIntermediatePool scenarioB = Outcome.ok ctx' ∧
      ctx'.balance ModuleAccount.ModuleName "uvna" =
        scenarioB.balance ModuleAccount.ModuleName "uvna" + 1 := by
  rintro ⟨ctx', hE, htd⟩
  have hE' : CalculateAndSendAmountFromYieldIntermediatePool scenarioB =
      Outcome.ok scenarioBEngineResult := by rfl
  rw [hE'] at hE
  injection hE with hE
  subst hE
  revert htd
  decide

/-- C12 (amended): with trust deposit value 10^9, yield rate 0.05, the dust pre-loaded
to 0.99999 and at least 8 uvna in the pool, the candidate is 8.922011953507237559, the
engine performs a Transfer of exactly 8 uvna, and the new dust is the candidate minus 8,
0.922011953507237559. The dust store works and no send restriction applies. -/
theorem scenario_B_transfers_eight (ctx : Ctx)
    (hparams : ctx.params = some ⟨1000000000, ⟨50000000000000000⟩⟩)
    (hdust : ctx.dust = some ⟨999990000000000000⟩)
    (hR : ctx.dustGetFails = false) (hW : ctx.dustSetFails = false)
    (hbal : 8 ≤ ctx.balance ModuleAccount.YieldIntermediatePoolAccount "uvna")
    (hres : (ModuleAccount.YieldIntermediatePoolAccount, ModuleAccount.ModuleName) ∉
      ctx.bankKeeper.restricted) :
    ∃ ctx', CalculateAndSendAmountFromYieldIntermediatePool ctx = Outcome.ok ctx' ∧
      ctx'.logger = ctx.logger ++
        [LogEntry.transferredYield [⟨"uvna", 8⟩] ⟨922011953507237559⟩] ∧
      ctx'.balance ModuleAccount.YieldIntermediatePoolAccount "uvna" =
        ctx.balance ModuleAccount.YieldIntermediatePoolAccount "uvna" - 8 ∧
      ctx'.balance ModuleAccount.ModuleName "uvna" =
        ctx.balance ModuleAccount.ModuleName "uvna" + 8 ∧
      ctx'.dustValue = ⟨8922011953507237559 - 8 * precisionReuse⟩ ∧
      ctx'.dustValue = ⟨922011953507237559⟩ := by
  have hP : ParamsGet ctx = .ok ⟨1000000000, ⟨50000000000000000⟩⟩ := by
    simp [ParamsGet, hparams]
  have hD : GetDustAmount ctx = .ok ⟨999990000000000000⟩ := by
    simp [GetDustAmount, hR, hdust]
  obtain ⟨ctx', hE, hlog, hp, ht, hd⟩ :=
    engine_transfer_post ctx ⟨1000000000, ⟨50000000000000000⟩⟩ ⟨7922021953507237559⟩
      ⟨999990000000000000⟩ ⟨8922011953507237559⟩ 8 hP (by decide) hD (by decide) (by decide)
      (by decide) hbal hres hW
  have e : (8922011953507237559 : Int) - 8 * precisionReuse = 922011953507237559 := by
    decide
  refine ⟨ctx', hE, ?_, hp, ht, hd, ?_⟩
  · rw [hlog]
    simp only [e]
  · rw [hd]
    simp only [e]

/-- Witness of C12 (amended): scenario B with 1000 uvna in the pool. -/
theorem scenario_B_transfers_eight_witness :
    ∃ ctx', CalculateAndSendAmountFromYieldIntermediatePool scenarioB = Outcome.ok ctx' ∧
      ctx'.balance ModuleAccount.ModuleName "uvna" = 8 ∧
      ctx'.dustValue = ⟨922011953507237559⟩ := by
  obtain ⟨ctx', hE, _, _, ht, _, hd⟩ :=
    scenario_B_transfers_eight scenarioB (by rfl) (by rfl) (by rfl) (by rfl) (by decide)
      (by decide)
  have e : scenarioB.balance ModuleAccount.ModuleName "uvna" = 0 := by decide
  rw [e] at ht
  exact ⟨ctx', hE, by rw [ht]; norm_num, hd⟩

/-! ## Dust across a Transfer -/

/-- C13 (counterexample): in scenario A the engine performs a Transfer from the
non-negative dust 0 with the non-negative per-step yield 7.922021953507237559, and the
dust after the step, 0.922021953507237559, is not less than the dust before. -/
theorem transfer_can_raise_dust :
    (0 : Int) ≤ scenarioA.dustValue.i ∧
    perBlockYield ⟨1000000000, ⟨50000000000000000⟩⟩ = some ⟨7922021953507237559⟩ ∧
    CalculateAndSendAmountFromYieldIntermediatePool scenarioA =
      Outcome.ok scenarioAEngineResult ∧
    scenarioAEngineResult.logger = scenarioA.logger ++
      [LogEntry.transferredYield [⟨"uvna", 7⟩] ⟨922021953507237559⟩] ∧
    ¬ scenarioAEngineResult.dustValue.i < scenarioA.dustValue.i :=
  ⟨by decide, by decide, by rfl, by rfl, by decide⟩

/-- C13 (amended): whenever a step performs a Transfer of `n` uvna, `n` is at least 1
and the stored dust after the step is `dust_before + perBlockYield - n`, strictly less
than the candidate `dust_before + perBlockYield`; it is strictly less than the dust
before the step exactly when the per-step yield is less than `n`, in particular whenever
the per-step yield is below 1. -/
theorem transfer_dust_change (ctx ctx' : Ctx) (coins : Coins) (remainingDust : LegacyDec)
    (h : CalculateAndSendAmountFromYieldIntermediatePool ctx = Outcome.ok ctx')
    (hlog : ctx'.logger = ctx.logger ++ [LogEntry.transferredYield coins remainingDust]) :
    ∃ params y n, ParamsGet ctx = .ok params ∧ perBlockYield params = some y ∧
      coins = [⟨"uvna", n⟩] ∧ 1 ≤ n ∧
      ctx'.dustValue.i = ctx.dustValue.i + y.i - n * precisionReuse ∧
      ctx'.dustValue.i < ctx.dustValue.i + y.i ∧
      (ctx'.dustValue.i < ctx.dustValue.i ↔ y.i < n * precisionReuse) ∧
      (y.i < precisionReuse → ctx'.dustValue.i < ctx.dustValue.i) := by
  obtain ⟨params, y, d, c, n, bank, hP, hY, hD, hA, hc, hT, hcoins, _, _, _, hdust⟩ :=
    engine_transfer_inv ctx ctx' coins remainingDust h hlog
  have hd : d = ctx.dustValue := by
    unfold GetDustAmount at hD
    split at hD
    · exact absurd hD (by simp)
    · injection hD with hD
      exact hD.symm
  subst hd
  have hn := (truncateInt_eq c n hc hT).2.1
  have hci := add_eq _ _ _ hA
  have hp : precisionReuse = 1000000000000000000 := precisionReuse_eq
  have hd' : ctx'.dustValue.i = c.i - n * precisionReuse := by
    simp only [Ctx.dustValue, hdust, Option.getD_some]
  refine ⟨params, y, n, hP, hY, hcoins, hn, ?_, ?_, ?_, ?_⟩
  · rw [hd', hci]
  · rw [hd', hci, hp]; omega
  · rw [hd', hci, hp]; omega
  · rw [hd', hci, hp]; omega

/-- Witness of C13 (amended): from dust 0.5 the Transfer of 8 uvna with per-step yield
7.922021953507237559 lowers the dust to 0.422021953507237559. -/
theorem transfer_dust_change_witness :
    CalculateAndSendAmountFromYieldIntermediatePool transferExample =
      Outcome.ok transferExampleResult ∧
    ∃ params y n, ParamsGet transferExample = .ok params ∧ perBlockYield params = some y ∧
      [(⟨"uvna", 8⟩ : Coin)] = [⟨"uvna", n⟩] ∧
      (transferExampleResult.dustValue.i < transferExample.dustValue.i ↔
        y.i < n * precisionReuse) := by
  obtain ⟨params, y, n, hP, hY, hcoins, _, _, _, hiff, _⟩ :=
    transfer_dust_change transferExample transferExampleResult
      [⟨"uvna", 8⟩] ⟨422021953507237559⟩ (by rfl) (by rfl)
  exact ⟨by rfl, params, y, n, hP, hY, hcoins, hiff⟩

/-! ## The sweep after the engine -/

/-- C14: the sweep runs after the engine, whatever the engine did. For every step in
which the engine returns nil (Accumulate, Skip or Transfer, leaving state `ctx1`),
`BeginBlocker` is the sweep run on `ctx1`; it returns nil whenever the pool's balance in
`ctx1` is a valid coin set and no send restriction applies; and whenever it returns nil
the pool is at zero in every denomination and the community pool has gained exactly the
pool's balance on entry minus the engine's transfer `t` (`t` uvna, gained by the trust
deposit module; zero unless the engine logged a Transfer). -/
theorem sweep_runs_after_engine (ctx ctx1 : Ctx)
    (hE : CalculateAndSendAmountFromYieldIntermediatePool ctx = Outcome.ok ctx1) :
    BeginBlocker ctx = SendFundsBackToCommunityPool ctx1 ∧
    ((ctx1.bankKeeper.GetAllBalances ModuleAccount.YieldIntermediatePoolAccount).IsValid =
        true →
      (ModuleAccount.YieldIntermediatePoolAccount, ModuleAccount.ProtocolPool) ∉
        ctx1.bankKeeper.restricted →
      ∃ ctx', BeginBlocker ctx = Outcome.ok ctx') ∧
    ∃ t : Int,
      ((t = 0 ∧ ctx1.bankKeeper = ctx.bankKeeper ∧
          (ctx1.logger = ctx.logger ∨ ∃ c, ctx1.logger = ctx.logger ++ [LogEntry.accumulatedDust c]))
        ∨ (1 ≤ t ∧ ∃ rem, ctx1.logger =
            ctx.logger ++ [LogEntry.transferredYield [⟨"uvna", t⟩] rem])) ∧
      ∀ ctx', BeginBlocker ctx = Outcome.ok ctx' → ∀ denom,
        ctx'.balance ModuleAccount.YieldIntermediatePoolAccount denom = 0 ∧
        ctx'.balance ModuleAccount.ModuleName denom =
          ctx.balance ModuleAccount.ModuleName denom + (if denom = "uvna" then t else 0) ∧
        ctx'.balance ModuleAccount.ProtocolPool denom =
          ctx.balance ModuleAccount.ProtocolPool denom +
            (ctx.balance ModuleAccount.YieldIntermediatePoolAccount denom -
              (if denom = "uvna" then t else 0)) := by
  have hB : BeginBlocker ctx = SendFundsBackToCommunityPool ctx1 := by
    unfold BeginBlocker
    rw [hE]
    simp only
    cases hS : SendFundsBackToCommunityPool ctx1 <;> rfl
  obtain ⟨t, ht, hbal⟩ := engine_balances ctx ctx1 hE
  refine ⟨hB, ?_, t, ht, ?_⟩
  · intro hv hres
    rw [hB]
    exact sweep_succeeds ctx1 hv hres
  · intro ctx' h denom
    rw [hB] at h
    obtain ⟨h1, h2, h3⟩ := hbal denom
    obtain ⟨h4, h5, h6⟩ := sweep_balances ctx1 ctx' h denom
    refine ⟨h4, ?_, ?_⟩ <;> omega

/-- Witness of C14: in scenario A the engine transfers 7 uvna and the sweep then moves
the remaining 993 uvna, leaving the pool empty. -/
theorem sweep_runs_after_engine_witness :
    BeginBlocker scenarioA = SendFundsBackToCommunityPool scenarioAEngineResult ∧
    BeginBlocker scenarioA = Outcome.ok scenarioAResult ∧
    scenarioAResult.balance ModuleAccount.ProtocolPool "uvna" = 993 ∧
    scenarioAResult.balance ModuleAccount.YieldIntermediatePoolAccount "uvna" = 0 :=
  ⟨(sweep_runs_after_engine scenarioA scenarioAEngineResult (by rfl)).1, by rfl, by decide,
    by decide⟩

/-! ## Sweep idempotence -/

theorem pairwise_ne_setBalance (bal : Coins) (d : String) (a : Int)
    (h : List.Pairwise (fun x y : Coin => x.Denom ≠ y.Denom) bal) :
    List.Pairwise (fun x y : Coin => x.Denom ≠ y.Denom) (bal.setBalance d a) := by
  unfold Coins.setBalance
  have hf : List.Pairwise (fun x y : Coin => x.Denom ≠ y.Denom)
      (bal.filter (fun c => c.Denom ≠ d)) := h.filter _
  by_cases ha : a = 0
  · simp only [ha, if_true]
    exact hf
  · simp only [ha, if_false]
    have hperm := List.perm_orderedInsert (fun a b : Coin => stringLess b.Denom a.Denom = false)
      (⟨d, a⟩ : Coin) (bal.filter (fun c => c.Denom ≠ d))
    rw [hperm.pairwise_iff (fun hxy => Ne.symm hxy), List.pairwise_cons]
    refine ⟨?_, hf⟩
    intro x hx
    have := (List.mem_filter.mp hx).2
    simp only [decide_eq_true_eq] at this
    exact fun e => this e.symm

theorem pairwise_ne_subUnlockedCoins (amt : Coins) :
    ∀ bal bal' : Coins, List.Pairwise (fun x y : Coin => x.Denom ≠ y.Denom) bal →
      subUnlockedCoins bal amt = some bal' →
      List.Pairwise (fun x y : Coin => x.Denom ≠ y.Denom) bal' := by
  induction amt with
  | nil =>
    intro bal bal' h hs
    simp only [subUnlockedCoins, Option.some.injEq] at hs
    rw [← hs]
    exact h
  | cons coin amt ih =>
    intro bal bal' h hs
    simp only [subUnlockedCoins] at hs
    split at hs
    · exact absurd hs (by simp)
    · exact ih _ _ (pairwise_ne_setBalance _ _ _ h) hs

theorem isZero_of_amountOf (l : Coins)
    (hnd : List.Pairwise (fun x y : Coin => x.Denom ≠ y.Denom) l)
    (h : ∀ d, Coins.AmountOf l d = 0) : l.IsZero = true := by
  unfold Coins.IsZero
  rw [List.all_eq_true]
  intro c hc
  rw [decide_eq_true_eq, ← amountOf_of_mem l hnd c hc]
  exact h c.Denom

/-- The pool's stored balance after a successful sweep is a zero coin set. -/
theorem sweep_leaves_zero_pool (ctx ctx1 : Ctx)
    (h : SendFundsBackToCommunityPool ctx = Outcome.ok ctx1) :
    (ctx1.bankKeeper.GetAllBalances ModuleAccount.YieldIntermediatePoolAccount).IsZero =
      true := by
  rcases sweep_ok_cases ctx ctx1 h with ⟨hz, hctx⟩ | ⟨_, bank, hS, hctx⟩
  · subst hctx
    exact hz
  · have hzero := fun denom => (sweep_balances ctx ctx1 h denom).1
    subst hctx
    apply isZero_of_amountOf
    · unfold BankKeeper.SendCoinsFromModuleToModule at hS
      split at hS
      · exact absurd hS (by simp)
      · split at hS
        · exact absurd hS (by simp)
        · rename_i hval
          have hval' : (ctx.bankKeeper.GetAllBalances
              ModuleAccount.YieldIntermediatePoolAccount).IsValid = true := by simpa using hval
          split at hS
          · exact absurd hS (by simp)
          · rename_i senderBalance hsub
            injection hS with hS
            subst hS
            have hp := pairwise_ne_subUnlockedCoins _ _ _ (isValid_pairwise_ne _ hval') hsub
            simpa [BankKeeper.GetAllBalances] using hp
    · intro d
      exact hzero d

/-- C15: sweep idempotence. When `SendFundsBackToCommunityPool` returns nil, the pool is at
zero in every denomination, a second call right after returns nil with the state
unchanged (it transfers nothing and the pool is still at zero); and on any state whose
pool balance is zero the call returns nil with the state unchanged. -/
theorem sweep_twice_is_sweep_once (ctx ctx1 : Ctx)
    (h : SendFundsBackToCommunityPool ctx = Outcome.ok ctx1) :
    (∀ denom, ctx1.balance ModuleAccount.YieldIntermediatePoolAccount denom = 0) ∧
    SendFundsBackToCommunityPool ctx1 = Outcome.ok ctx1 ∧
    (SendFundsBackToCommunityPool ctx).andThen SendFundsBackToCommunityPool = Outcome.ok ctx1 ∧
    ∀ ctx0 : Ctx,
      (ctx0.bankKeeper.GetAllBalances ModuleAccount.YieldIntermediatePoolAccount).IsZero = true →
      SendFundsBackToCommunityPool ctx0 = Outcome.ok ctx0 := by
  have hnoop : ∀ ctx0 : Ctx,
      (ctx0.bankKeeper.GetAllBalances ModuleAccount.YieldIntermediatePoolAccount).IsZero = true →
      SendFundsBackToCommunityPool ctx0 = Outcome.ok ctx0 := by
    intro ctx0 hz
    unfold SendFundsBackToCommunityPool
    simp only [hz, if_true]
  have h2 := hnoop ctx1 (sweep_leaves_zero_pool ctx ctx1 h)
  refine ⟨fun denom => (sweep_balances ctx ctx1 h denom).1, h2, ?_, hnoop⟩
  rw [h]
  exact h2

/-- Witness of C15: sweeping the pool of 3 uatom and 1000 uvna twice. -/
theorem sweep_twice_is_sweep_once_witness :
    SendFundsBackToCommunityPool sweepExample = Outcome.ok sweepExampleResult ∧
    SendFundsBackToCommunityPool sweepExampleResult = Outcome.ok sweepExampleResult ∧
    (SendFundsBackToCommunityPool sweepExample).andThen SendFundsBackToCommunityPool =
      Outcome.ok sweepExampleResult :=
  ⟨by rfl, (sweep_twice_is_sweep_once sweepExample sweepExampleResult (by rfl)).2.1,
    (sweep_twice_is_sweep_once sweepExample sweepExampleResult (by rfl)).2.2.1⟩

/-! ## The threshold, scenario C and the transfer amount -/

/-- C16: threshold boundary. When the candidate `c = dust + perBlockYield` is exactly 1
and the pool holds at least 1 uvna, `CalculateAndSendAmountFromYieldIntermediatePool`
performs a Transfer of 1 uvna (it logs the transfer, not an accumulation) and the stored
dust becomes exactly 0. The stores answer and no send restriction applies. -/
theorem threshold_is_transfer (ctx : Ctx) (params : Params) (y d c : LegacyDec)
    (hP : ParamsGet ctx = .ok params) (hY : perBlockYield params = some y)
    (hD : GetDustAmount ctx = .ok d) (hA : d.Add y = some c)
    (hc : c.i = precisionReuse)
    (hbal : 1 ≤ ctx.balance ModuleAccount.YieldIntermediatePoolAccount "uvna")
    (hres : (ModuleAccount.YieldIntermediatePoolAccount, ModuleAccount.ModuleName) ∉
      ctx.bankKeeper.restricted)
    (hW : ctx.dustSetFails = false) :
    ∃ ctx', CalculateAndSendAmountFromYieldIntermediatePool ctx = Outcome.ok ctx' ∧
      ctx'.logger = ctx.logger ++ [LogEntry.transferredYield [⟨"uvna", 1⟩] ⟨0⟩] ∧
      ctx'.balance ModuleAccount.YieldIntermediatePoolAccount "uvna" =
        ctx.balance ModuleAccount.YieldIntermediatePoolAccount "uvna" - 1 ∧
      ctx'.balance ModuleAccount.ModuleName "uvna" =
        ctx.balance ModuleAccount.ModuleName "uvna" + 1 ∧
      ctx'.dustValue = ⟨0⟩ := by
  have hT : c.TruncateInt = some 1 := by
    unfold LegacyDec.TruncateInt
    rw [hc]
    decide
  have e : c.i - 1 * precisionReuse = 0 := by rw [hc]; ring
  obtain ⟨ctx', hE, hlog, hp, ht, hd⟩ :=
    engine_transfer_post ctx params y d c 1 hP hY hD hA (le_of_eq hc.symm) hT hbal hres hW
  rw [e] at hlog hd
  exact ⟨ctx', hE, hlog, hp, ht, hd⟩

/-- Witness of C16: dust 0.992077978046492762 plus the per-block yield
0.007922021953507238 is exactly 1; 1 uvna moves and the dust becomes 0. -/
theorem threshold_is_transfer_witness :
    ∃ ctx', CalculateAndSendAmountFromYieldIntermediatePool boundaryExample = Outcome.ok ctx' ∧
      ctx'.logger = [LogEntry.transferredYield [⟨"uvna", 1⟩] ⟨0⟩] ∧
      ctx'.balance ModuleAccount.ModuleName "uvna" = 1 ∧
      ctx'.dustValue = ⟨0⟩ := by
  obtain ⟨ctx', hE, hlog, _, ht, hd⟩ :=
    threshold_is_transfer boundaryExample ⟨1000000, ⟨50000000000000000⟩⟩
      ⟨7922021953507238⟩ ⟨992077978046492762⟩ ⟨1000000000000000000⟩
      (by rfl) (by decide) (by rfl) (by decide) (by decide) (by decide) (by decide) (by rfl)
  have e : boundaryExample.balance ModuleAccount.ModuleName "uvna" = 0 := by decide
  rw [e] at ht
  exact ⟨ctx', hE, hlog, by rw [ht]; norm_num, hd⟩

/-- C17: scenario C. For every state in which the candidate `c = dust + perBlockYield` is
at least 1 and the pool's balance is zero, the engine skips, the sweep does nothing, and
`BeginBlocker` returns nil with the state exactly as it was: the stored dust and every
balance are unchanged. The stores answer and the decimal operations stay in range. -/
theorem zero_pool_step_changes_nothing (ctx : Ctx) (params : Params) (y d c : LegacyDec)
    (n : Int)
    (hP : ParamsGet ctx = .ok params) (hY : perBlockYield params = some y)
    (hD : GetDustAmount ctx = .ok d) (hA : d.Add y = some c)
    (hc : precisionReuse ≤ c.i) (hT : c.TruncateInt = some n)
    (hz : (ctx.bankKeeper.GetAllBalances ModuleAccount.YieldIntermediatePoolAccount).IsZero =
      true) :
    CalculateAndSendAmountFromYieldIntermediatePool ctx = Outcome.ok ctx ∧
    SendFundsBackToCommunityPool ctx = Outcome.ok ctx ∧
    BeginBlocker ctx = Outcome.ok ctx := by
  have hn := (truncateInt_eq c n hc hT).2.1
  have hbal : ctx.balance ModuleAccount.YieldIntermediatePoolAccount "uvna" < n := by
    unfold Ctx.balance
    rw [amountOf_of_isZero _ hz]
    omega
  have hE := engine_skip ctx params y d c n hP hY hD hA hc hT hbal
  have hS : SendFundsBackToCommunityPool ctx = Outcome.ok ctx := by
    unfold SendFundsBackToCommunityPool
    simp only [hz, if_true]
  refine ⟨hE, hS, ?_⟩
  unfold BeginBlocker
  rw [hE]
  simp only
  rw [hS]

/-- Witness of C17: scenario C, candidate 8.422021953507237559 and an empty pool. -/
theorem zero_pool_step_changes_nothing_witness :
    BeginBlocker scenarioC = Outcome.ok scenarioC :=
  (zero_pool_step_changes_nothing scenarioC ⟨1000000000, ⟨50000000000000000⟩⟩
    ⟨7922021953507237559⟩ ⟨500000000000000000⟩ ⟨8422021953507237559⟩ 8
    (by rfl) (by decide) (by rfl) (by decide) (by decide) (by decide) (by decide)).2.2

/-- C20: the transfer amount is positive. Whenever the engine enters the branch of a
candidate `c` at least 1, the truncation of `c` is at least 1; and for the transfer
amount `n` that `TruncateInt` returns, `NewCoin` succeeds (its non-negative check cannot
fail), `NewCoins` keeps the coin (the coin set is not empty), the solvency check
`IsAllGTE` compares `n` with the pool's uvna balance, and the engine does not panic. -/
theorem transfer_amount_is_positive (ctx : Ctx) (params : Params) (y d c : LegacyDec)
    (hP : ParamsGet ctx = .ok params) (hY : perBlockYield params = some y)
    (hD : GetDustAmount ctx = .ok d) (hA : d.Add y = some c)
    (hge : c.GTE (LegacyNewDec 1) = true) :
    1 ≤ Int.tdiv c.i precisionReuse ∧
    ∀ n, c.TruncateInt = some n →
      n = Int.tdiv c.i precisionReuse ∧ 1 ≤ n ∧
      NewCoin "uvna" n = some ⟨"uvna", n⟩ ∧
      NewCoins [⟨"uvna", n⟩] = some [⟨"uvna", n⟩] ∧
      ([⟨"uvna", n⟩] : Coins).length ≠ 0 ∧
      (∀ bal : Coins, bal.IsAllGTE [⟨"uvna", n⟩] = decide (n ≤ bal.AmountOf "uvna")) ∧
      CalculateAndSendAmountFromYieldIntermediatePool ctx ≠ Outcome.panicked := by
  have hc : precisionReuse ≤ c.i := by
    simpa [LegacyDec.GTE, LegacyNewDec] using hge
  have hp : (0 : Int) < precisionReuse := by rw [precisionReuse_eq]; norm_num
  have hci : (0 : Int) ≤ c.i := le_trans (le_of_lt hp) hc
  have h1 : 1 ≤ Int.tdiv c.i precisionReuse := by
    rw [Int.tdiv_eq_ediv hci (le_of_lt hp), Int.le_ediv_iff_mul_le hp]
    simpa using hc
  refine ⟨h1, ?_⟩
  intro n hT
  have htr := truncateInt_eq c n hc hT
  have hn := htr.2.1
  refine ⟨?_, hn, newCoin_uvna n hn, newCoins_uvna n hn, by simp,
    fun bal => isAllGTE_single bal "uvna" n hn, ?_⟩
  · rw [Int.tdiv_eq_ediv hci (le_of_lt hp)]
    exact htr.1
  · unfold CalculateAndSendAmountFromYieldIntermediatePool
    simp only [hP, hY, hD, hA, hge, if_true, hT, newCoin_uvna n hn, newCoins_uvna n hn,
      sub_truncated c n hc hT]
    split
    · simp
    · split
      · simp
      · unfold SetDustAmount
        split <;> simp

/-- Witness of C20: the candidate 8.422021953507237559 of `transferExample` truncates to
8, and the coin of 8 uvna is built. -/
theorem transfer_amount_is_positive_witness :
    (1 : Int) ≤ Int.tdiv 8422021953507237559 precisionReuse ∧
    NewCoin "uvna" 8 = some ⟨"uvna", 8⟩ ∧
    CalculateAndSendAmountFromYieldIntermediatePool transferExample ≠ Outcome.panicked := by
  obtain ⟨h1, h2⟩ :=
    transfer_amount_is_positive transferExample ⟨1000000000, ⟨50000000000000000⟩⟩
      ⟨7922021953507237559⟩ ⟨500000000000000000⟩ ⟨8422021953507237559⟩
      (by rfl) (by decide) (by rfl) (by decide) (by decide)
  obtain ⟨_, _, h3, _, _, _, h4⟩ := h2 8 (by decide)
  exact ⟨h1, h3, h4⟩

/-! ## The reachable dust -/

theorem getDustAmount_eq (ctx : Ctx) (d : LegacyDec) (h : GetDustAmount ctx = .ok d) :
    d = ctx.dustValue := by
  unfold GetDustAmount at h
  split at h
  · exact absurd h (by simp)
  · injection h with h
    exact h.symm

/-- One successful run of the engine with a non-negative per-block yield keeps the dust
in `[0, 1)`. -/
theorem engine_step_dust_interval (ctx ctx' : Ctx) (params : Params) (y : LegacyDec)
    (hP : ParamsGet ctx = .ok params) (hY : perBlockYield params = some y) (hy : 0 ≤ y.i)
    (h0 : 0 ≤ ctx.dustValue.i) (h1 : ctx.dustValue.i < precisionReuse)
    (h : CalculateAndSendAmountFromYieldIntermediatePool ctx = Outcome.ok ctx') :
    0 ≤ ctx'.dustValue.i ∧ ctx'.dustValue.i < precisionReuse := by
  obtain ⟨params', y', d, c, hP', hY', hD, hA, hcase⟩ := engine_ok_cases ctx ctx' h
  rw [hP] at hP'
  injection hP' with hP'
  subst hP'
  rw [hY] at hY'
  injection hY' with hY'
  subst hY'
  have hd := getDustAmount_eq ctx d hD
  subst hd
  have hc := add_eq _ _ _ hA
  rcases hcase with ⟨hlt, _, hctx⟩ | ⟨_, n, _, _, hctx⟩ | ⟨hge, n, bank, hT, _, _, _, hctx⟩
  · subst hctx
    simp only [Ctx.dustValue, Option.getD_some]
    simp only [Ctx.dustValue] at h0 hc
    exact ⟨by omega, hlt⟩
  · subst hctx
    exact ⟨h0, h1⟩
  · subst hctx
    have htr := truncateInt_eq c n hge hT
    exact ⟨htr.2.2.1, htr.2.2.2⟩

/-- C19: reachable-state invariant. Every reachable dust value (from a start in `[0, 1)`,
through successful runs of the engine with a non-negative per-block yield) lies in
`[0, 1)`, whichever of Accumulate, Transfer or Skip each run took; and a run that skips
(candidate at least 1, the pool's uvna balance below its integer part) leaves the state,
hence the dust, exactly as it was: the per-block yield is not added. -/
theorem reachable_dust_in_unit_interval (d : LegacyDec) (h : DustReachable d) :
    (0 ≤ d.i ∧ d.i < precisionReuse) ∧
    ∀ (ctx ctx' : Ctx) (params : Params) (y : LegacyDec),
      ParamsGet ctx = .ok params → perBlockYield params = some y →
      CalculateAndSendAmountFromYieldIntermediatePool ctx = Outcome.ok ctx' →
      precisionReuse ≤ ctx.dustValue.i + y.i →
      ctx.balance ModuleAccount.YieldIntermediatePoolAccount "uvna" <
        (ctx.dustValue.i + y.i) / precisionReuse →
      ctx' = ctx ∧ ctx'.dustValue = ctx.dustValue := by
  constructor
  · induction h with
    | start d h0 h1 => exact ⟨h0, h1⟩
    | step ctx ctx' _ hyield hstep ih =>
      obtain ⟨params, y, hP, hY, hy⟩ := hyield
      exact engine_step_dust_interval ctx ctx' params y hP hY hy ih.1 ih.2 hstep
  · intro ctx ctx' params y hP hY hE hge hbal
    obtain ⟨params', y', d', c, hP', hY', hD, hA, hcase⟩ := engine_ok_cases ctx ctx' hE
    rw [hP] at hP'
    injection hP' with hP'
    subst hP'
    rw [hY] at hY'
    injection hY' with hY'
    subst hY'
    have hd := getDustAmount_eq ctx d' hD
    subst hd
    have hc := add_eq _ _ _ hA
    rw [← hc] at hge hbal
    rcases hcase with ⟨hlt, _, _⟩ | ⟨_, n, _, _, hctx⟩ | ⟨hge', n, bank, hT, hG, _, _, _⟩
    · omega
    · subst hctx
      exact ⟨rfl, rfl⟩
    · have htr := truncateInt_eq c n hge' hT
      rw [isAllGTE_single _ _ _ htr.2.1, decide_eq_true_eq] at hG
      rw [← htr.1] at hbal
      unfold Ctx.balance at hbal
      omega

/-- Witness of C19: the dust 0.422021953507237559 that the Transfer of `transferExample`
leaves is reachable from the dust 0.5, and lies in `[0, 1)`. -/
theorem reachable_dust_in_unit_interval_witness :
    DustReachable transferExampleResult.dustValue ∧
    0 ≤ transferExampleResult.dustValue.i ∧
    transferExampleResult.dustValue.i < precisionReuse :=
  have hr : DustReachable transferExampleResult.dustValue :=
    DustReachable.step transferExample transferExampleResult
      (DustReachable.start _ (by decide) (by decide))
      ⟨⟨1000000000, ⟨50000000000000000⟩⟩, ⟨7922021953507237559⟩, by rfl, by decide, by decide⟩
      (by rfl)
  ⟨hr, (reachable_dust_in_unit_interval _ hr).1⟩

/-! ## The per-block yield formula -/

theorem chopNonneg_eq (t : Int) (ht : 0 ≤ t) :
    chopPrecisionAndRoundNonneg t =
      if t % 1000000000000000000 = 0 then t / 1000000000000000000
      else if t % 1000000000000000000 < 500000000000000000 then t / 1000000000000000000
      else if 500000000000000000 < t % 1000000000000000000 then t / 1000000000000000000 + 1
      else if t / 1000000000000000000 % 2 = 0 then t / 1000000000000000000
      else t / 1000000000000000000 + 1 := by
  have hp : (0 : Int) ≤ 1000000000000000000 := by norm_num
  unfold chopPrecisionAndRoundNonneg fivePrecision
  simp only [precisionReuse_eq, Int.tdiv_eq_ediv ht hp, Int.tmod_eq_emod ht hp]
  norm_num

theorem chopNonneg_mul (x : Int) (hx : 0 ≤ x) :
    chopPrecisionAndRoundNonneg (x * 1000000000000000000) = x := by
  rw [chopNonneg_eq _ (by omega)]
  split_ifs <;> omega

/-- Chopping an exact multiple of `10^18` is exact: no rounding takes place. -/
theorem chop_mul_precision (x : Int) : chopPrecisionAndRound (x * precisionReuse) = x := by
  unfold chopPrecisionAndRound
  rw [precisionReuse_eq]
  by_cases hx : x * 1000000000000000000 < 0
  · simp only [hx, if_true]
    have : -(x * 1000000000000000000) = (-x) * 1000000000000000000 := by ring
    rw [this, chopNonneg_mul (-x) (by omega)]
    omega
  · simp only [hx, if_false]
    exact chopNonneg_mul x (by omega)

/-- The product of an integer-valued decimal and a decimal is exact:
`LegacyNewDecFromInt(v).Mul(r)` is `v * r` whenever it returns. -/
theorem mul_fromInt_exact (v : Int) (r a : LegacyDec)
    (h : (LegacyNewDecFromInt v).Mul r = some a) : a.i = v * r.i := by
  unfold LegacyDec.Mul LegacyNewDecFromInt at h
  have e : v * precisionReuse * r.i = (v * r.i) * precisionReuse := by ring
  simp only [e, chop_mul_precision] at h
  split at h
  · injection h with h
    rw [← h]
  · exact absurd h (by simp)

theorem quoRound_nonneg (b : Int) (hb : 0 ≤ b) :
    0 ≤ chopPrecisionAndRoundNonneg
        ((b * 1000000000000000000 * 1000000000000000000) / 6311520000000000000000000) ∧
    2 * (chopPrecisionAndRoundNonneg
        ((b * 1000000000000000000 * 1000000000000000000) / 6311520000000000000000000)
          * 6311520 - b) ≤ 6311520 ∧
    -6311520 ≤ 2 * (chopPrecisionAndRoundNonneg
        ((b * 1000000000000000000 * 1000000000000000000) / 6311520000000000000000000)
          * 6311520 - b) := by
  have he : 0 ≤ (b * 1000000000000000000 * 1000000000000000000) / 6311520000000000000000000 := by
    omega
  rw [chopNonneg_eq _ he]
  split_ifs <;> omega

/-- The rounded quotient by `blocksPerYear`: twice its distance from the exact quotient,
scaled by `6311520`, is at most `6311520`. -/
theorem quoRound_bound (a : Int) :
    2 * (chopPrecisionAndRound (Int.tdiv (a * precisionReuse * precisionReuse)
      (6311520 * precisionReuse)) * 6311520 - a) ≤ 6311520 ∧
    -6311520 ≤ 2 * (chopPrecisionAndRound (Int.tdiv (a * precisionReuse * precisionReuse)
      (6311520 * precisionReuse)) * 6311520 - a) := by
  rw [precisionReuse_eq]
  have hk : (6311520 : Int) * 1000000000000000000 = 6311520000000000000000000 := by norm_num
  rw [hk]
  unfold chopPrecisionAndRound
  by_cases ha : 0 ≤ a
  · have hn : (0 : Int) ≤ a * 1000000000000000000 * 1000000000000000000 := by omega
    rw [Int.tdiv_eq_ediv hn (by norm_num)]
    have he : ¬ (a * 1000000000000000000 * 1000000000000000000) /
        6311520000000000000000000 < 0 := by omega
    simp only [he, if_false]
    obtain ⟨_, h1, h2⟩ := quoRound_nonneg a ha
    exact ⟨h1, h2⟩
  · have hneg : a * 1000000000000000000 * 1000000000000000000 =
        -((-a) * 1000000000000000000 * 1000000000000000000) := by ring
    have hn : (0 : Int) ≤ (-a) * 1000000000000000000 * 1000000000000000000 := by omega
    rw [hneg, Int.neg_tdiv, Int.tdiv_eq_ediv hn (by norm_num)]
    obtain ⟨h0, h1, h2⟩ := quoRound_nonneg (-a) (by omega)
    by_cases he : -((-a) * 1000000000000000000 * 1000000000000000000 /
        6311520000000000000000000) < 0
    · simp only [he, if_true, neg_neg]
      constructor <;> omega
    · simp only [he, if_false]
      have hz : (-a) * 1000000000000000000 * 1000000000000000000 /
          6311520000000000000000000 = 0 := by omega
      rw [hz] at h1 h2
      rw [hz]
      simp only [neg_zero]
      constructor <;> omega

theorem bitLenLE_iff (x : Int) (n : Nat) :
    bitLenLE x n = true ↔ -((2 : Int) ^ n) < x ∧ x < (2 : Int) ^ n := by
  unfold bitLenLE
  rw [decide_eq_true_eq, ← abs_lt, ← Int.natCast_natAbs]
  constructor
  · intro h
    exact_mod_cast h
  · intro h
    exact_mod_cast h

/-- The division by `blocksPerYear` never fails: the divisor is not zero, and the
quotient of a decimal in range is in range. -/
theorem quo_blocksPerYear_some (a : LegacyDec) (ha : bitLenLE a.i maxDecBitLen = true) :
    ∃ y, a.Quo (LegacyNewDecFromInt (NewInt 6311520)) = some y := by
  have hp : precisionReuse = 1000000000000000000 := precisionReuse_eq
  have hne : ¬ (LegacyNewDecFromInt (NewInt 6311520)).i = 0 := by
    unfold LegacyNewDecFromInt NewInt
    rw [hp]
    norm_num
  obtain ⟨h1, h2⟩ := quoRound_bound a.i
  have hb : bitLenLE (chopPrecisionAndRound (Int.tdiv (a.i * precisionReuse * precisionReuse)
      (6311520 * precisionReuse))) maxDecBitLen = true := by
    rw [bitLenLE_iff] at ha ⊢
    unfold maxDecBitLen at ha ⊢
    norm_num at ha ⊢
    constructor <;> omega
  unfold LegacyDec.Quo
  simp only [hne, if_false]
  unfold LegacyNewDecFromInt NewInt
  simp only [hb, if_true]
  exact ⟨_, rfl⟩

/-- The per-block yield formula on the code as it is: the annual yield is exactly
`int64(TrustDepositValue) * TrustDepositYieldRate` (so `TrustDepositValue *
TrustDepositYieldRate` below `2^63`), the division by `6311520` then returns, and its
result is within half of `10^-18` of the exact quotient. -/
theorem perBlockYield_formula (params : Params) (annualYield : LegacyDec)
    (hM : (LegacyNewDecFromInt (NewInt (int64 params.TrustDepositValue))).Mul
      params.TrustDepositYieldRate = some annualYield) :
    annualYield.i = int64 params.TrustDepositValue * params.TrustDepositYieldRate.i ∧
    (params.TrustDepositValue < 2 ^ 63 →
      annualYield.i = (params.TrustDepositValue : Int) * params.TrustDepositYieldRate.i) ∧
    ∃ y, perBlockYield params = some y ∧
      annualYield.Quo (LegacyNewDecFromInt (NewInt 6311520)) = some y ∧
      |(y.i : ℚ) / 10 ^ 18 - (annualYield.i : ℚ) / 10 ^ 18 / 6311520| ≤ 1 / 2 / 10 ^ 18 := by
  have hexact := mul_fromInt_exact _ _ _ hM
  have hrange : bitLenLE annualYield.i maxDecBitLen = true := by
    unfold LegacyDec.Mul at hM
    simp only at hM
    split at hM
    · rename_i hb
      injection hM with hM
      rw [← hM]
      exact hb
    · exact absurd hM (by simp)
  obtain ⟨y, hQ⟩ := quo_blocksPerYear_some annualYield hrange
  refine ⟨hexact, ?_, y, ?_, hQ, ?_⟩
  · intro hv
    rw [hexact]
    unfold int64 NewInt
    have : params.TrustDepositValue % 2 ^ 64 = params.TrustDepositValue :=
      Nat.mod_eq_of_lt (by omega)
    rw [this]
    simp only [hv, if_true]
  · unfold perBlockYield
    simp only [hM]
    exact hQ
  · have hy : y.i = chopPrecisionAndRound (Int.tdiv
        (annualYield.i * precisionReuse * precisionReuse) (6311520 * precisionReuse)) := by
      unfold LegacyDec.Quo LegacyNewDecFromInt NewInt at hQ
      split at hQ
      · exact absurd hQ (by simp)
      · simp only at hQ
        split at hQ
        · injection hQ with hQ
          rw [← hQ]
        · exact absurd hQ (by simp)
    obtain ⟨h1, h2⟩ := quoRound_bound annualYield.i
    rw [← hy] at h1 h2
    have h1' : (2 : ℚ) * ((y.i : ℚ) * 6311520 - (annualYield.i : ℚ)) ≤ 6311520 := by
      exact_mod_cast h1
    have h2' : (-6311520 : ℚ) ≤ 2 * ((y.i : ℚ) * 6311520 - (annualYield.i : ℚ)) := by
      exact_mod_cast h2
    rw [abs_le]
    constructor
    · have e : (y.i : ℚ) / 10 ^ 18 - (annualYield.i : ℚ) / 10 ^ 18 / 6311520 =
          (2 * ((y.i : ℚ) * 6311520 - (annualYield.i : ℚ))) / (2 * 6311520 * 10 ^ 18) := by
        field_simp
        ring
      rw [e, le_div_iff₀ (by norm_num)]
      norm_num
      linarith
    · have e : (y.i : ℚ) / 10 ^ 18 - (annualYield.i : ℚ) / 10 ^ 18 / 6311520 =
          (2 * ((y.i : ℚ) * 6311520 - (annualYield.i : ℚ))) / (2 * 6311520 * 10 ^ 18) := by
        field_simp
        ring
      rw [e, div_le_iff₀ (by norm_num)]
      norm_num
      linarith

/-- C18 (the code at the failing input): with `TrustDepositValue = 2^63` and yield rate
0.05 the annual yield the code computes is `-2^63 * 0.05`, not `2^63 * 0.05`; the
per-block yield is its quotient by `6311520`, a negative number. -/
theorem int64_wrap_negates_annual_yield :
    (LegacyNewDecFromInt (NewInt (int64 9223372036854775808))).Mul ⟨50000000000000000⟩ =
      some ⟨-461168601842738790400000000000000000⟩ ∧
    (-461168601842738790400000000000000000 : Int) ≠
      (9223372036854775808 : Int) * 50000000000000000 ∧
    (⟨-461168601842738790400000000000000000⟩ : LegacyDec).Quo
        (LegacyNewDecFromInt (NewInt 6311520)) =
      some ⟨-73067755761328299743960250463⟩ :=
  ⟨by decide, by decide, by decide⟩

end Verana
